import Mathlib

/-!
Verification development for the sharded market-data reader library
(`parquet_reader_lib.h` / `parquet_reader_lib.cpp`).

The C++ library reads a dataset sharded into one parquet file per UTC
calendar day per symbol.  The components modelled here, bottom-up:

* `Entry`, `decodeLeaf` — the `Int64Cursor` pull cursor over one leaf
  column.  The cursor's incremental `ensure_pending`/`take`/`peek` over
  65536-level batches is modelled as a whole-column decode: the same
  sequence of entries is produced, and the `"value_idx overflow"` error
  (the value stream being shorter than the level stream implies) is
  surfaced as an `Except.error`, which at the call sites has the same
  observable effect (the row group fails and the file is skipped).
* `append_list_from_leaf_for_row`, `append_list_pairs_for_row_typed` —
  the list assemblers, operating on the decoded entry sequence.  The C++
  versions take optional output pointers (null when the row is out of the
  caller's window); here the appended values are returned and the caller
  decides whether to keep them, which is the same observable behaviour.
* `candidate_files_strict` with its date helpers — file discovery.  The
  libc calendar functions `gmtime_r`/`timegm` are not part of this
  repository; they are modelled from the spec as proleptic-Gregorian UTC
  calendar conversions (`civilFromDays` / `daysFromCivil`).  The
  `fs::exists` check is abstracted as a caller-supplied predicate.
* `processDeltaRG` / `processTopRG` / `processTradeRG` — the per-row-group
  bodies of `FileStreamerDeltaCols::next_rg`, `FileStreamerTopCols::next_rg`
  and `FileStreamerTradeCols::next_rg`.  Lazy per-pull column decoding is
  modelled as an eager per-column decode at the start of the row group;
  an error anywhere in a needed column aborts that row group exactly as a
  mid-loop throw does (no batch is delivered for it, the file is skipped).
* `readerNext` / `readerDrain` — the `TopBatchReader::Impl::next`,
  `TradeBatchReader::Impl::next` and `DeltaBatchReader::Impl::next` loops.
  The three loops are textually identical in the C++ up to the streamer
  type, so they are modelled once, generically; a file system is a pair of
  an existence predicate (used by discovery) and an open function
  (`none` models `ParquetFileReader::OpenFile` throwing).  Zero-copy view
  pointer plumbing (null pointers for unselected columns) and the debug /
  prefetch toggles are not modelled: they do not affect batch content.

Machine-integer note: row counts and list lengths are modelled as `Nat`.
The one place where fixed-width arithmetic is observable is the `uint32_t`
offset vectors of the depth streamer: every offset push is reduced
`% 2^32` (`uint32Mod`).  The `uint32_t` element counters inside the list
assemblers are kept as `Nat`, which is faithful because a counter is used
only in an offset push, and `(a + b % 2^32) % 2^32 = (a + b) % 2^32`.
-/

namespace ShardedReader

/-- Decidable equality for `Except`, used to evaluate the model on
concrete inputs. -/
instance {ε α : Type} [DecidableEq ε] [DecidableEq α] : DecidableEq (Except ε α)
  | .error a, .error b =>
    if h : a = b then isTrue (by rw [h]) else isFalse (by intro hc; cases hc; exact h rfl)
  | .error _, .ok _ => isFalse (by intro h; cases h)
  | .ok _, .error _ => isFalse (by intro h; cases h)
  | .ok a, .ok b =>
    if h : a = b then isTrue (by rw [h]) else isFalse (by intro hc; cases hc; exact h rfl)

/-! ## Entries and leaf columns (`Int64Cursor`) -/

/-- One decoded slot of a leaf column (C++ `struct Entry`): definition
level `dl`, repetition level `rl`, presence flag, value (0 when absent),
and the `valid` flag (false only for the default entry returned by
`take()` on an exhausted cursor). -/
structure Entry where
  dl : Nat
  rl : Nat
  has_value : Bool
  value : Int
  valid : Bool
deriving DecidableEq, Repr

/-- The entry `take()` returns when the cursor is exhausted (C++ `Entry{}`). -/
def Entry.none : Entry := ⟨0, 0, false, 0, false⟩

/-- `take()` on the decoded entry sequence: consume-and-return, returning
the default entry when the column is exhausted. -/
def takeE : List Entry → Entry × List Entry
  | [] => (Entry.none, [])
  | e :: r => (e, r)

/-- One physical leaf column: the column descriptor's max definition and
repetition levels, the level stream, and the (compacted) value stream. -/
structure LeafCol where
  max_def : Nat
  max_rep : Nat
  levels : List (Nat × Nat)
  values : List Int
deriving DecidableEq, Repr

/-- Decode a whole leaf column into the entry sequence `Int64Cursor`
produces.  A slot whose definition level equals the column's max
definition level carries the next value; when the value stream runs out
first this is the cursor's `"value_idx overflow"` structural fault. -/
def decodeLeaf (md mr : Nat) : List (Nat × Nat) → List Int → Except String (List Entry)
  | [], _ => .ok []
  | l :: ls, vals =>
    let d := if md = 0 then 0 else l.1
    let r := if mr = 0 then 0 else l.2
    if d = md then
      match vals with
      | [] => .error "value_idx overflow"
      | v :: vs => (decodeLeaf md mr ls vs).map (fun rest => ⟨d, r, true, v, true⟩ :: rest)
    else
      (decodeLeaf md mr ls vals).map (fun rest => ⟨d, r, false, 0, true⟩ :: rest)

/-- Decode the entry sequence of a leaf column. -/
def decodeCol (c : LeafCol) : Except String (List Entry) :=
  decodeLeaf c.max_def c.max_rep c.levels c.values

/-! ## List assemblers -/

/-- Result of `append_list_from_leaf_for_row`: count returned, values
appended (when the output buffer is non-null), remaining entries. -/
structure LeafRead where
  count : Nat
  vals : List Int
  rest : List Entry
deriving DecidableEq, Repr

/-- The consume loop shared by the list assemblers: take the current
entry, then keep taking while the upcoming entry's repetition level is
nonzero; stop when the next entry has repetition level zero or the
column ends.  Returns (consumed entries, remaining entries). -/
def consumeRun : List Entry → List Entry × List Entry
  | [] => ([], [])
  | e :: rest =>
    match rest with
    | [] => ([e], [])
    | n :: _ =>
      if n.rl = 0 then ([e], rest)
      else
        let p := consumeRun rest
        (e :: p.1, p.2)

/-- C++ `append_list_from_leaf_for_row`: read the current row's LIST from
a single leaf.  An absent first entry with repetition level zero is an
explicit empty list (consumed, zero elements); otherwise the run of the
current row is consumed and its values appended. -/
def append_list_from_leaf_for_row (leaf : List Entry) : LeafRead :=
  match leaf with
  | [] => ⟨0, [], []⟩
  | p :: rest =>
    if p.has_value = false ∧ p.rl = 0 then ⟨0, [], rest⟩
    else
      let c := consumeRun (p :: rest)
      ⟨c.1.length, c.1.map (fun e => e.value), c.2⟩

/-- Result of `append_list_pairs_for_row_typed`: pairs appended, the two
value lists, and the two remaining entry sequences. -/
structure PairRead where
  count : Nat
  pxVals : List Int
  qtyVals : List Int
  pxRest : List Entry
  qtyRest : List Entry
deriving DecidableEq, Repr

/-- The pair-consume loop of `append_list_pairs_for_row_typed`: take one
entry from each leg (`take()` on an exhausted leg yields the default
entry, value 0) and append both values; continue while both legs have a
next entry, the next px repetition level is nonzero, and the two next
repetition levels agree.  Only ever entered with both legs non-empty. -/
def consumePairs : List Entry → List Entry → PairRead
  | p :: ps, q :: qs =>
    match ps, qs with
    | np :: _, nq :: _ =>
      if np.rl = 0 ∨ np.rl ≠ nq.rl then ⟨1, [p.value], [q.value], ps, qs⟩
      else
        let r := consumePairs ps qs
        ⟨r.count + 1, p.value :: r.pxVals, q.value :: r.qtyVals, r.pxRest, r.qtyRest⟩
    | _, _ => ⟨1, [p.value], [q.value], ps, qs⟩
  | p :: ps, [] => ⟨1, [p.value], [Entry.none.value], ps, []⟩
  | [], qs => ⟨0, [], [], [], qs⟩

/-- C++ `append_list_pairs_for_row_typed`: read the current row's LIST
pairs (px, qty), advancing the two decoders lock-step; a repetition-level
disagreement silently ends the row's list. -/
def append_list_pairs_for_row_typed (px qty : List Entry) : PairRead :=
  match px, qty with
  | [], _ => ⟨0, [], [], px, qty⟩
  | _ :: _, [] => ⟨0, [], [], px, qty⟩
  | p :: ps, q :: qs =>
    if (p.has_value = false ∧ p.rl = 0) ∧ (q.has_value = false ∧ q.rl = 0) then
      ⟨0, [], [], ps, qs⟩
    else consumePairs (p :: ps) (q :: qs)

/-! ## Date helpers and file discovery -/

/-- Calendar-date triple (C++ `struct YMD`). -/
structure YMD where
  year : Int
  month : Int
  day : Int
deriving DecidableEq, Repr

/-- Modelled from the spec: the date part of libc `gmtime_r` (not part of
this repository), i.e. civil-from-days in the proleptic Gregorian
calendar, for a day count relative to 1970-01-01. -/
def civilFromDays (z0 : Int) : YMD :=
  let z := z0 + 719468
  let era := if 0 ≤ z then Int.tdiv z 146097 else Int.tdiv (z - 146096) 146097
  let doe := z - era * 146097
  let yoe := Int.tdiv (doe - Int.tdiv doe 1460 + Int.tdiv doe 36524 - Int.tdiv doe 146096) 365
  let y := yoe + era * 400
  let doy := doe - (365 * yoe + Int.tdiv yoe 4 - Int.tdiv yoe 100)
  let mp := Int.tdiv (5 * doy + 2) 153
  let d := doy - Int.tdiv (153 * mp + 2) 5 + 1
  let m := if mp < 10 then mp + 3 else mp - 9
  ⟨if m ≤ 2 then y + 1 else y, m, d⟩

/-- Modelled from the spec: libc `timegm`'s day count (not part of this
repository), i.e. days-from-civil in the proleptic Gregorian calendar. -/
def daysFromCivil (y0 m d : Int) : Int :=
  let y := if m ≤ 2 then y0 - 1 else y0
  let era := if 0 ≤ y then Int.tdiv y 400 else Int.tdiv (y - 399) 400
  let yoe := y - era * 400
  let doy := Int.tdiv (153 * (if 2 < m then m - 3 else m + 9) + 2) 5 + d - 1
  let doe := yoe * 365 + Int.tdiv yoe 4 - Int.tdiv yoe 100 + doy
  era * 146097 + doe - 719468

/-- C++ `ymd_utc_from_ns`: nanoseconds to seconds by C truncating
division, then `gmtime_r` (floor day split) to a calendar date. -/
def ymd_utc_from_ns (ns : Int) : YMD :=
  let s := Int.tdiv ns 1000000000
  civilFromDays (Int.fdiv s 86400)

/-- C++ `floor_day_ns` (truncating `/` and `%`, as in the source). -/
def floor_day_ns (ns : Int) : Int :=
  let sec := Int.tdiv ns 1000000000
  let day_sec := sec - Int.tmod sec 86400
  day_sec * 1000000000

/-- C++ `ymd_utc_start_ns`: `timegmmodelled` of midnight of (Y, M, D). -/
def ymd_utc_start_ns (y m d : Int) : Int :=
  daysFromCivil y m d * 86400 * 1000000000

/-- Nanoseconds in one day (C++ `day_ns`). -/
def dayNs : Int := 86400000000000

/-- ASCII `tolower` (C locale), as applied byte-wise by C++ `to_lower`. -/
def c_tolower (c : Char) : Char :=
  if 'A' ≤ c ∧ c ≤ 'Z' then Char.ofNat (c.toNat + 32) else c

/-- C++ `to_lower`: lowercase every character. -/
def str_tolower (s : String) : String := ⟨s.data.map c_tolower⟩

/-- C++ `norm_market`: normalize/accept a market token. -/
def norm_market : Option String → Option String
  | Option.none => Option.none
  | some m =>
    let s0 := str_tolower m
    let s1 := if s0 = "futures" then "fut" else s0
    let s2 := if s1 = "future" then "fut" else s1
    if s2 = "spot" ∨ s2 = "fut" then some s2 else Option.none

/-- C++ `struct Candidate`: path plus the day's half-open instant range. -/
structure Candidate where
  path : String
  file_start_ns : Int
  file_end_ns : Int
deriving DecidableEq, Repr

/-- The strict-layout path for the day starting at `cur` (non-padded
month/day):
`<root>/<kind>_<market>/<SYMB>/<Y>/<M>/bn_<kind>_<market>_<SYMB>_<Y>_<M>_<D>.parquet`. -/
def strictPath (root base_type mkt symb : String) (cur : Int) : String :=
  let ymd := ymd_utc_from_ns cur
  root ++ "/" ++ base_type ++ "_" ++ mkt ++ "/" ++ symb ++ "/" ++
    toString ymd.year ++ "/" ++ toString ymd.month ++ "/" ++
    "bn_" ++ base_type ++ "_" ++ mkt ++ "_" ++ symb ++ "_" ++
    toString ymd.year ++ "_" ++ toString ymd.month ++ "_" ++ toString ymd.day ++ ".parquet"

/-- The candidate record pushed for the day starting at `cur`. -/
def mkCandidate (root base_type mkt symb : String) (cur : Int) : Candidate :=
  let ymd := ymd_utc_from_ns cur
  let file_start := ymd_utc_start_ns ymd.year ymd.month ymd.day
  ⟨strictPath root base_type mkt symb cur, file_start, file_start + dayNs⟩

/-- The day-enumeration loop `while (cur <= end_floor) { ...; cur += day_ns }`,
with an explicit fuel bound on the iteration count. -/
def dayLoop : Nat → Int → Int → List Int
  | 0, _, _ => []
  | fuel + 1, cur, endFloor =>
    if cur ≤ endFloor then cur :: dayLoop fuel (cur + dayNs) endFloor else []

/-- Fuel that strictly dominates the iteration count of `dayLoop`. -/
def dayLoopFuel (cur endFloor : Int) : Nat :=
  (endFloor - cur).toNat / 86400000000000 + 1

/-- The day starts the discovery loop enumerates for window `[s, e)`. -/
def dayStarts (s e : Int) : List Int :=
  let cur := floor_day_ns s
  let endFloor := floor_day_ns (e - 1)
  dayLoop (dayLoopFuel cur endFloor) cur endFloor

/-- C++ `candidate_files_strict` for one (already normalized) market:
enumerate the days and keep those whose strict-layout path exists. -/
def candidatesOneMarket (root symb base_type mkt : String) (s e : Int)
    (ex : String → Bool) : List Candidate :=
  (dayStarts s e).filterMap (fun cur =>
    if ex (strictPath root base_type mkt symb cur) then
      some (mkCandidate root base_type mkt symb cur)
    else Option.none)

/-- C++ `candidate_files_strict`.  `ex` abstracts `fs::exists`; the
`sampling` argument is accepted and ignored exactly as in the source
(debug print only).  The thrown `runtime_error` for a bad market token is
an `Except.error`.  Note the empty/inverted-window early return precedes
market validation, as in the source. -/
def candidate_files_strict (root symb base_type : String) (market : Option String)
    (start_ns end_ns : Int) (sampling : Option String) (ex : String → Bool) :
    Except String (List Candidate) :=
  let _ := sampling
  if start_ns ≥ end_ns then .ok []
  else
    match market with
    | some m =>
      match norm_market (some m) with
      | Option.none => .error "market must be 'fut' or 'spot'"
      | some nm => .ok (candidatesOneMarket root symb base_type nm start_ns end_ns ex)
    | Option.none =>
      .ok (candidatesOneMarket root symb base_type "fut" start_ns end_ns ex ++
           candidatesOneMarket root symb base_type "spot" start_ns end_ns ex)

/-- The in-window predicate `t >= start_ns && t < end_ns` of the scans. -/
def inWin (s e t : Int) : Bool := decide (s ≤ t) && decide (t < e)

/-! ## Depth (delta) streamer: `FileStreamerDeltaCols::next_rg` -/

/-- C++ `DeltaSelect`: per-column projection flags. -/
structure DeltaSelect where
  ts : Bool := true
  firstId : Bool := true
  lastId : Bool := true
  eventTime : Bool := true
  ask_px : Bool := true
  ask_qty : Bool := true
  bid_px : Bool := true
  bid_qty : Bool := true
deriving DecidableEq, Repr

/-- C++ `need_asks = sel.ask_px || sel.ask_qty`. -/
def needAsks (sel : DeltaSelect) : Bool := sel.ask_px || sel.ask_qty

/-- C++ `need_bids = sel.bid_px || sel.bid_qty`. -/
def needBids (sel : DeltaSelect) : Bool := sel.bid_px || sel.bid_qty

/-- Which columns a depth file's schema contains (`find_col_idx ≥ 0`). -/
structure DepthSchema where
  hasTs : Bool
  hasFid : Bool
  hasLid : Bool
  hasEvt : Bool
  hasAskPx : Bool
  hasAskQty : Bool
  hasBidPx : Bool
  hasBidQty : Bool
deriving DecidableEq, Repr

/-- One depth row group: its metadata row count and its leaf columns
(`ts`, `firstId`, `lastId`, `eventTime`, `ask.list.element.px`,
`ask.list.element.qty`, `bid.list.element.px`, `bid.list.element.qty`). -/
structure DepthRG where
  rows : Nat
  ts : LeafCol
  fid : LeafCol
  lid : LeafCol
  evt : LeafCol
  apx : LeafCol
  aqty : LeafCol
  bpx : LeafCol
  bqty : LeafCol
deriving DecidableEq, Repr

/-- The output buffers of one depth batch (the reader's reused vectors,
freshly cleared for the row group). -/
structure DeltaBuffers where
  v_ts : List Int
  v_fid : List Int
  v_lid : List Int
  v_evt : List Int
  ask_off : List Nat
  ask_px : List Int
  ask_qty : List Int
  bid_off : List Nat
  bid_px : List Int
  bid_qty : List Int
deriving DecidableEq, Repr

/-- Reduction modulo `2^32`, for the `uint32_t` offset vectors. -/
def uint32Mod (n : Nat) : Nat := n % 4294967296

/-- The in-flight state of the depth row loop: the remaining entry
sequences of the eight cursors plus the output buffers. -/
structure DeltaState where
  ts : List Entry
  fid : List Entry
  lid : List Entry
  evt : List Entry
  apx : List Entry
  aqty : List Entry
  bpx : List Entry
  bqty : List Entry
  buf : DeltaBuffers
deriving DecidableEq, Repr

/-- The ask-side consumption of one row (the `if (need_asks)` ladder of
the row loop): pairs when both legs are selected, a single leaf when only
one is, nothing when the side is unselected. -/
def askRowConsume (sel : DeltaSelect) (apx aqty : List Entry) : PairRead :=
  if sel.ask_px && sel.ask_qty then append_list_pairs_for_row_typed apx aqty
  else if sel.ask_px then
    let r := append_list_from_leaf_for_row apx
    ⟨r.count, r.vals, [], r.rest, aqty⟩
  else if sel.ask_qty then
    let r := append_list_from_leaf_for_row aqty
    ⟨r.count, [], r.vals, apx, r.rest⟩
  else ⟨0, [], [], apx, aqty⟩

/-- The bid-side consumption of one row (the `if (need_bids)` ladder). -/
def bidRowConsume (sel : DeltaSelect) (bpx bqty : List Entry) : PairRead :=
  if sel.bid_px && sel.bid_qty then append_list_pairs_for_row_typed bpx bqty
  else if sel.bid_px then
    let r := append_list_from_leaf_for_row bpx
    ⟨r.count, r.vals, [], r.rest, bqty⟩
  else if sel.bid_qty then
    let r := append_list_from_leaf_for_row bqty
    ⟨r.count, [], r.vals, bpx, r.rest⟩
  else ⟨0, [], [], bpx, bqty⟩

/-- One iteration of the depth row loop (`for (int64_t r = 0; r < rows; ++r)`):
take the scalar entries, consume both list sides, and append to the
output buffers only when the row's timestamp is in `[start_ns, end_ns)`. -/
def deltaRowStep (sel : DeltaSelect) (s e : Int) (st : DeltaState) : DeltaState :=
  let tts := takeE st.ts
  let tfid := if sel.firstId then takeE st.fid else (Entry.none, st.fid)
  let tlid := if sel.lastId then takeE st.lid else (Entry.none, st.lid)
  let tevt := if sel.eventTime then takeE st.evt else (Entry.none, st.evt)
  let in_range : Bool := inWin s e tts.1.value
  let a := askRowConsume sel st.apx st.aqty
  let b := bidRowConsume sel st.bpx st.bqty
  let buf := st.buf
  let buf2 : DeltaBuffers :=
    { v_ts := buf.v_ts ++ (if in_range then [tts.1.value] else [])
      v_fid := buf.v_fid ++ (if in_range && sel.firstId then [tfid.1.value] else [])
      v_lid := buf.v_lid ++ (if in_range && sel.lastId then [tlid.1.value] else [])
      v_evt := buf.v_evt ++ (if in_range && sel.eventTime then [tevt.1.value] else [])
      ask_off := buf.ask_off ++
        (if in_range && needAsks sel then [uint32Mod (buf.ask_off.getLastD 0 + a.count)] else [])
      ask_px := buf.ask_px ++ (if in_range then a.pxVals else [])
      ask_qty := buf.ask_qty ++ (if in_range then a.qtyVals else [])
      bid_off := buf.bid_off ++
        (if in_range && needBids sel then [uint32Mod (buf.bid_off.getLastD 0 + b.count)] else [])
      bid_px := buf.bid_px ++ (if in_range then b.pxVals else [])
      bid_qty := buf.bid_qty ++ (if in_range then b.qtyVals else []) }
  { ts := tts.2, fid := tfid.2, lid := tlid.2, evt := tevt.2
    apx := a.pxRest, aqty := a.qtyRest, bpx := b.pxRest, bqty := b.qtyRest
    buf := buf2 }

/-- The depth row loop, iterated `rows` times. -/
def deltaRowLoop (sel : DeltaSelect) (s e : Int) : Nat → DeltaState → DeltaState
  | 0, st => st
  | r + 1, st => deltaRowLoop sel s e r (deltaRowStep sel s e st)

/-- The freshly cleared output buffers at the start of a row group:
everything empty, each needed offset vector seeded with `0`. -/
def initDeltaBuffers (sel : DeltaSelect) : DeltaBuffers :=
  { v_ts := [], v_fid := [], v_lid := [], v_evt := []
    ask_off := if needAsks sel then [0] else [], ask_px := [], ask_qty := []
    bid_off := if needBids sel then [0] else [], bid_px := [], bid_qty := [] }

/-- The body of `FileStreamerDeltaCols::next_rg` for one row group: the
column-presence checks (each missing required column throws), the column
decodes, and the row loop.  Decoding is eager per column (see module
comment); every error string matches the C++ `runtime_error` message. -/
def processDeltaRG (sel : DeltaSelect) (s e : Int) (sch : DepthSchema) (rg : DepthRG) :
    Except String DeltaBuffers :=
  if sch.hasTs = false then .error "depth: missing ts"
  else if sel.firstId = true ∧ sch.hasFid = false then .error "depth: missing firstId"
  else if sel.lastId = true ∧ sch.hasLid = false then .error "depth: missing lastId"
  else if sel.eventTime = true ∧ sch.hasEvt = false then .error "depth: missing eventTime"
  else if sel.ask_px = true ∧ sch.hasAskPx = false then .error "depth: missing ask px"
  else if sel.ask_qty = true ∧ sch.hasAskQty = false then .error "depth: missing ask qty"
  else if sel.bid_px = true ∧ sch.hasBidPx = false then .error "depth: missing bid px"
  else if sel.bid_qty = true ∧ sch.hasBidQty = false then .error "depth: missing bid qty"
  else
    (decodeCol rg.ts).bind fun tsE =>
    (if sel.firstId then decodeCol rg.fid else .ok []).bind fun fidE =>
    (if sel.lastId then decodeCol rg.lid else .ok []).bind fun lidE =>
    (if sel.eventTime then decodeCol rg.evt else .ok []).bind fun evtE =>
    (if sel.ask_px then decodeCol rg.apx else .ok []).bind fun apxE =>
    (if sel.ask_qty then decodeCol rg.aqty else .ok []).bind fun aqtyE =>
    (if sel.bid_px then decodeCol rg.bpx else .ok []).bind fun bpxE =>
    (if sel.bid_qty then decodeCol rg.bqty else .ok []).bind fun bqtyE =>
    .ok (deltaRowLoop sel s e rg.rows
      { ts := tsE, fid := fidE, lid := lidE, evt := evtE
        apx := apxE, aqty := aqtyE, bpx := bpxE, bqty := bqtyE
        buf := initDeltaBuffers sel }).buf

/-- The depth streamer's per-row-group step as the batch reader sees it:
`ok none` when the row group produced zero in-window rows (the
`if (!v_ts.empty()) return true` check), `ok (some b)` for a batch. -/
def deltaProc (sel : DeltaSelect) (s e : Int) (sch : DepthSchema) (rg : DepthRG) :
    Except String (Option DeltaBuffers) :=
  (processDeltaRG sel s e sch rg).map (fun b => if b.v_ts.isEmpty then Option.none else some b)

/-! ## Top-of-book streamer: `FileStreamerTopCols::next_rg` -/

/-- C++ `TopSelect`. -/
structure TopSelect where
  ts : Bool := true
  ask_px : Bool := true
  ask_qty : Bool := true
  bid_px : Bool := true
  bid_qty : Bool := true
  valu : Bool := true
  min_bid_px : Bool := false
  max_bid_px : Bool := false
  min_ask_px : Bool := false
  max_ask_px : Bool := false
  min_bid_ts : Bool := false
  max_bid_ts : Bool := false
  min_ask_ts : Bool := false
  max_ask_ts : Bool := false
deriving DecidableEq, Repr

/-- Which columns a top file's schema contains. -/
structure TopSchema where
  ts : Bool
  ask_px : Bool
  ask_qty : Bool
  bid_px : Bool
  bid_qty : Bool
  valu : Bool
  min_bid_px : Bool
  max_bid_px : Bool
  min_ask_px : Bool
  max_ask_px : Bool
  min_bid_ts : Bool
  max_bid_ts : Bool
  min_ask_ts : Bool
  max_ask_ts : Bool
deriving DecidableEq, Repr

/-- One top row group: metadata row count plus the required INT64 columns
(as plain value sequences — the columns are required, without levels). -/
structure TopRG where
  rows : Nat
  ts : List Int
  ask_px : List Int
  ask_qty : List Int
  bid_px : List Int
  bid_qty : List Int
  valu : List Int
  min_bid_px : List Int
  max_bid_px : List Int
  min_ask_px : List Int
  max_ask_px : List Int
  min_bid_ts : List Int
  max_bid_ts : List Int
  min_ask_ts : List Int
  max_ask_ts : List Int
deriving DecidableEq, Repr

/-- The output buffers of one top batch. -/
structure TopBuffers where
  v_ts : List Int
  v_apx : List Int
  v_aq : List Int
  v_bpx : List Int
  v_bq : List Int
  v_val : List Int
  v_min_bpx : List Int
  v_max_bpx : List Int
  v_min_apx : List Int
  v_max_apx : List Int
  v_min_bts : List Int
  v_max_bts : List Int
  v_min_ats : List Int
  v_max_ats : List Int
deriving DecidableEq, Repr

/-- C++ `read_required_i64_column`: read exactly `rows` values of a
required column, throwing `"Short read in required column"` when the
column physically holds fewer. -/
def read_required_i64_column (rows : Nat) (col : List Int) : Except String (List Int) :=
  if rows ≤ col.length then .ok (col.take rows) else .error "Short read in required column"

/-- The scatter-copy of `read_and_scatter`: keep `tmp[i]` exactly for the
indices whose timestamp is in the window (write cursor `w++`). -/
def scatterByTs (s e : Int) (ts_all tmp : List Int) : List Int :=
  (ts_all.zip tmp).filterMap (fun p => if inWin s e p.1 then some p.2 else Option.none)

/-- One selected scalar column of the top streamer: presence check
(throwing `"top: missing <name>"`), required read, scatter. -/
def topScatterCol (s e : Int) (ts_all : List Int) (rows : Nat) (name : String)
    (present : Bool) (col : List Int) : Except String (List Int) :=
  if present = false then .error ("top: missing " ++ name)
  else (read_required_i64_column rows col).map (scatterByTs s e ts_all)

/-- Decode a column only when its selection flag is set (an unselected
column is never read and its output buffer stays cleared). -/
def selCol (b : Bool) (x : Except String (List Int)) : Except String (List Int) :=
  if b then x else .ok []

/-- The body of `FileStreamerTopCols::next_rg` for one row group:
`ok none` models the `if (cnt == 0) continue;` path. -/
def processTopRG (sel : TopSelect) (s e : Int) (sch : TopSchema) (rg : TopRG) :
    Except String (Option TopBuffers) :=
  if sch.ts = false then .error "top: missing ts"
  else
    (read_required_i64_column rg.rows rg.ts).bind fun ts_all =>
    if (ts_all.filter (inWin s e)).length = 0 then .ok Option.none
    else
      (selCol sel.ask_px (topScatterCol s e ts_all rg.rows "ask_px" sch.ask_px rg.ask_px)).bind fun v_apx =>
      (selCol sel.ask_qty (topScatterCol s e ts_all rg.rows "ask_qty" sch.ask_qty rg.ask_qty)).bind fun v_aq =>
      (selCol sel.bid_px (topScatterCol s e ts_all rg.rows "bid_px" sch.bid_px rg.bid_px)).bind fun v_bpx =>
      (selCol sel.bid_qty (topScatterCol s e ts_all rg.rows "bid_qty" sch.bid_qty rg.bid_qty)).bind fun v_bq =>
      (selCol sel.valu (topScatterCol s e ts_all rg.rows "valu" sch.valu rg.valu)).bind fun v_val =>
      (selCol sel.min_bid_px (topScatterCol s e ts_all rg.rows "min_bid_px" sch.min_bid_px rg.min_bid_px)).bind fun v_min_bpx =>
      (selCol sel.max_bid_px (topScatterCol s e ts_all rg.rows "max_bid_px" sch.max_bid_px rg.max_bid_px)).bind fun v_max_bpx =>
      (selCol sel.min_ask_px (topScatterCol s e ts_all rg.rows "min_ask_px" sch.min_ask_px rg.min_ask_px)).bind fun v_min_apx =>
      (selCol sel.max_ask_px (topScatterCol s e ts_all rg.rows "max_ask_px" sch.max_ask_px rg.max_ask_px)).bind fun v_max_apx =>
      (selCol sel.min_bid_ts (topScatterCol s e ts_all rg.rows "min_bid_ts" sch.min_bid_ts rg.min_bid_ts)).bind fun v_min_bts =>
      (selCol sel.max_bid_ts (topScatterCol s e ts_all rg.rows "max_bid_ts" sch.max_bid_ts rg.max_bid_ts)).bind fun v_max_bts =>
      (selCol sel.min_ask_ts (topScatterCol s e ts_all rg.rows "min_ask_ts" sch.min_ask_ts rg.min_ask_ts)).bind fun v_min_ats =>
      (selCol sel.max_ask_ts (topScatterCol s e ts_all rg.rows "max_ask_ts" sch.max_ask_ts rg.max_ask_ts)).bind fun v_max_ats =>
      .ok (some ⟨ts_all.filter (inWin s e), v_apx, v_aq, v_bpx, v_bq, v_val, v_min_bpx, v_max_bpx,
        v_min_apx, v_max_apx, v_min_bts, v_max_bts, v_min_ats, v_max_ats⟩)

/-! ## Trade streamer: `FileStreamerTradeCols::next_rg` -/

/-- C++ `TradeSelect`. -/
structure TradeSelect where
  ts : Bool := true
  px : Bool := true
  qty : Bool := true
  tradeId : Bool := true
  buyerOrderId : Bool := true
  sellerOrderId : Bool := true
  tradeTime : Bool := true
  isMarket : Bool := true
  eventTime : Bool := true
deriving DecidableEq, Repr

/-- Which columns a trade file's schema contains. -/
structure TradeSchema where
  ts : Bool
  px : Bool
  qty : Bool
  tradeId : Bool
  buyerOrderId : Bool
  sellerOrderId : Bool
  tradeTime : Bool
  isMarket : Bool
  eventTime : Bool
deriving DecidableEq, Repr

/-- One trade row group (`isMarket` is the BOOLEAN column). -/
structure TradeRG where
  rows : Nat
  ts : List Int
  px : List Int
  qty : List Int
  tradeId : List Int
  buyerOrderId : List Int
  sellerOrderId : List Int
  tradeTime : List Int
  isMarket : List Bool
  eventTime : List Int
deriving DecidableEq, Repr

/-- The output buffers of one trade batch. -/
structure TradeBuffers where
  v_ts : List Int
  v_px : List Int
  v_qty : List Int
  v_tid : List Int
  v_boid : List Int
  v_soid : List Int
  v_ttime : List Int
  v_isMkt : List Bool
  v_evt : List Int
deriving DecidableEq, Repr

/-- C++ `read_required_bool_column`. -/
def read_required_bool_column (rows : Nat) (col : List Bool) : Except String (List Bool) :=
  if rows ≤ col.length then .ok (col.take rows) else .error "Short read in required bool column"

/-- The bool scatter of the trade streamer. -/
def scatterBoolByTs (s e : Int) (ts_all : List Int) (tmp : List Bool) : List Bool :=
  (ts_all.zip tmp).filterMap (fun p => if inWin s e p.1 then some p.2 else Option.none)

/-- One selected INT64 column of the trade streamer. -/
def tradeScatterCol (s e : Int) (ts_all : List Int) (rows : Nat) (name : String)
    (present : Bool) (col : List Int) : Except String (List Int) :=
  if present = false then .error ("trade: missing " ++ name)
  else (read_required_i64_column rows col).map (scatterByTs s e ts_all)

/-- The selected BOOLEAN column of the trade streamer. -/
def tradeScatterBoolCol (s e : Int) (ts_all : List Int) (rows : Nat)
    (present : Bool) (col : List Bool) : Except String (List Bool) :=
  if present = false then .error "trade: missing isMarket"
  else (read_required_bool_column rows col).map (scatterBoolByTs s e ts_all)

/-- Decode a bool column only when its selection flag is set. -/
def selBoolCol (b : Bool) (x : Except String (List Bool)) : Except String (List Bool) :=
  if b then x else .ok []

/-- The body of `FileStreamerTradeCols::next_rg` for one row group. -/
def processTradeRG (sel : TradeSelect) (s e : Int) (sch : TradeSchema) (rg : TradeRG) :
    Except String (Option TradeBuffers) :=
  if sch.ts = false then .error "trade: missing ts"
  else
    (read_required_i64_column rg.rows rg.ts).bind fun ts_all =>
    if (ts_all.filter (inWin s e)).length = 0 then .ok Option.none
    else
      (selCol sel.px (tradeScatterCol s e ts_all rg.rows "px" sch.px rg.px)).bind fun v_px =>
      (selCol sel.qty (tradeScatterCol s e ts_all rg.rows "qty" sch.qty rg.qty)).bind fun v_qty =>
      (selCol sel.tradeId (tradeScatterCol s e ts_all rg.rows "tradeId" sch.tradeId rg.tradeId)).bind fun v_tid =>
      (selCol sel.buyerOrderId (tradeScatterCol s e ts_all rg.rows "buyerOrderId" sch.buyerOrderId rg.buyerOrderId)).bind fun v_boid =>
      (selCol sel.sellerOrderId (tradeScatterCol s e ts_all rg.rows "sellerOrderId" sch.sellerOrderId rg.sellerOrderId)).bind fun v_soid =>
      (selCol sel.tradeTime (tradeScatterCol s e ts_all rg.rows "tradeTime" sch.tradeTime rg.tradeTime)).bind fun v_ttime =>
      (selBoolCol sel.isMarket (tradeScatterBoolCol s e ts_all rg.rows sch.isMarket rg.isMarket)).bind fun v_isMkt =>
      (selCol sel.eventTime (tradeScatterCol s e ts_all rg.rows "eventTime" sch.eventTime rg.eventTime)).bind fun v_evt =>
      .ok (some ⟨ts_all.filter (inWin s e), v_px, v_qty, v_tid, v_boid, v_soid, v_ttime, v_isMkt, v_evt⟩)

/-! ## Generic batch reader (`*BatchReader::Impl::next`)

The three reader `next` loops are textually identical up to the streamer
type, so they are modelled once.  Type parameters: `σ` a file schema,
`ρ` a row group, `β` a batch.  `openF path = none` models
`ParquetFileReader::OpenFile` throwing; `process sch rg = .error _`
models a throw inside `next_rg` (caught by the reader and handled by
skipping the whole file); `process sch rg = .ok none` models a row group
that produced zero in-window rows. -/

/-- The reader's resumable state: the open file's schema and remaining
row groups (if a file is open) plus the not-yet-attempted candidates. -/
structure ReaderState (σ ρ : Type) where
  cur : Option (σ × List ρ)
  pending : List Candidate
deriving DecidableEq, Repr

/-- The inner row-group loop of `next_rg` on the open file: skip
zero-in-window row groups, return the first populated batch together
with the remaining row groups, propagate a decode throw (as an error the
caller of this loop — the reader — catches), `ok none` at exhaustion. -/
def nextRgLoop (process : ρ → Except String (Option β)) :
    List ρ → Except String (Option (β × List ρ))
  | [] => .ok Option.none
  | rg :: rest =>
    match process rg with
    | .error msg => .error msg
    | .ok Option.none => nextRgLoop process rest
    | .ok (some b) => .ok (some (b, rest))

/-- The candidate-advancing loop of `next`: open the next candidate
(skipping it on an open failure), pull its first batch (skipping the
whole file on a decode failure or when it yields nothing), repeat. -/
def openLoop (openF : String → Option (σ × List ρ))
    (process : σ → ρ → Except String (Option β)) :
    List Candidate → Option (β × (σ × List ρ) × List Candidate)
  | [] => Option.none
  | c :: rest =>
    match openF c.path with
    | Option.none => openLoop openF process rest
    | some (sch, rgs) =>
      match nextRgLoop (process sch) rgs with
      | .error _ => openLoop openF process rest
      | .ok Option.none => openLoop openF process rest
      | .ok (some (b, rgs2)) => some (b, (sch, rgs2), rest)

/-- `BatchReader::Impl::next`: pull from the open file first, then fall
through to the candidate loop; `none` models `return false`. -/
def readerNext (openF : String → Option (σ × List ρ))
    (process : σ → ρ → Except String (Option β)) (st : ReaderState σ ρ) :
    Option (β × ReaderState σ ρ) :=
  match st.cur with
  | some (sch, rgs) =>
    match nextRgLoop (process sch) rgs with
    | .ok (some (b, rgs2)) => some (b, ⟨some (sch, rgs2), st.pending⟩)
    | .ok Option.none =>
      match openLoop openF process st.pending with
      | Option.none => Option.none
      | some (b, cf, pend) => some (b, ⟨some cf, pend⟩)
    | .error _ =>
      match openLoop openF process st.pending with
      | Option.none => Option.none
      | some (b, cf, pend) => some (b, ⟨some cf, pend⟩)
  | Option.none =>
    match openLoop openF process st.pending with
    | Option.none => Option.none
    | some (b, cf, pend) => some (b, ⟨some cf, pend⟩)

/-- Specification-side: the batches one file yields (its decodable
prefix: every populated batch before the first decode failure). -/
def fileBatches (process : ρ → Except String (Option β)) : List ρ → List β
  | [] => []
  | rg :: rest =>
    match process rg with
    | .error _ => []
    | .ok Option.none => fileBatches process rest
    | .ok (some b) => b :: fileBatches process rest

/-- Specification-side: the batches one candidate contributes (nothing
when it fails to open). -/
def candBatches (openF : String → Option (σ × List ρ))
    (process : σ → ρ → Except String (Option β)) (c : Candidate) : List β :=
  match openF c.path with
  | Option.none => []
  | some (sch, rgs) => fileBatches (process sch) rgs

/-- Specification-side: every batch still to be observed from a reader
state, in order. -/
def stateBatches (openF : String → Option (σ × List ρ))
    (process : σ → ρ → Except String (Option β)) (st : ReaderState σ ρ) : List β :=
  (match st.cur with
   | Option.none => []
   | some (sch, rgs) => fileBatches (process sch) rgs) ++
  st.pending.flatMap (candBatches openF process)

/-- Fuel weight of one candidate: its row-group count plus one. -/
def candWeight (openF : String → Option (σ × List ρ)) (c : Candidate) : Nat :=
  match openF c.path with
  | Option.none => 1
  | some (_, rgs) => 1 + rgs.length

/-- Fuel weight of a reader state: strictly decreases on every
successful `next`. -/
def stMeasure (openF : String → Option (σ × List ρ)) (st : ReaderState σ ρ) : Nat :=
  (match st.cur with
   | Option.none => 0
   | some (_, rgs) => 1 + rgs.length) +
  (st.pending.map (candWeight openF)).sum

/-- Iterate `next` until it reports exhaustion, with explicit fuel. -/
def drainFuel (openF : String → Option (σ × List ρ))
    (process : σ → ρ → Except String (Option β)) :
    Nat → ReaderState σ ρ → List β
  | 0, _ => []
  | fuel + 1, st =>
    match readerNext openF process st with
    | Option.none => []
    | some (b, st2) => b :: drainFuel openF process fuel st2

/-- The full observation sequence of a reader: every batch `next`
delivers until it returns false.  `stMeasure` fuel always suffices. -/
def readerDrain (openF : String → Option (σ × List ρ))
    (process : σ → ρ → Except String (Option β)) (st : ReaderState σ ρ) : List β :=
  drainFuel openF process (stMeasure openF st + 1) st

/-! ## Dataset facade (`ShardedDB::get_*_cols`)

Construction binds discovery (which can throw on a bad market token) to
a fresh reader state; the returned state is consumed with `readerNext` /
`readerDrain` against the appropriate `process` function. -/

/-- `ShardedDB::Impl::get_top`: candidates for kind `"top"` (the
sampling hint is passed through, and ignored by strict discovery). -/
def get_top_cols (root : String) (sampling : Option String) (s e : Int) (symb : String)
    (market : Option String) (ex : String → Bool) :
    Except String (ReaderState TopSchema TopRG) :=
  (candidate_files_strict root symb "top" market s e sampling ex).map
    (fun files => ⟨Option.none, files⟩)

/-- `ShardedDB::Impl::get_trade`: candidates for kind `"trade"`. -/
def get_trade_cols (root : String) (s e : Int) (symb : String)
    (market : Option String) (ex : String → Bool) :
    Except String (ReaderState TradeSchema TradeRG) :=
  (candidate_files_strict root symb "trade" market s e Option.none ex).map
    (fun files => ⟨Option.none, files⟩)

/-- `ShardedDB::Impl::get_depth`: candidates for kind `"depth"`. -/
def get_depth_cols (root : String) (s e : Int) (symb : String)
    (market : Option String) (ex : String → Bool) :
    Except String (ReaderState DepthSchema DepthRG) :=
  (candidate_files_strict root symb "depth" market s e Option.none ex).map
    (fun files => ⟨Option.none, files⟩)

/-! ## Specification-side functions

These restate, in the spec's words, what the depth row loop is claimed
to compute, so that the offset invariant can be stated as a refinement:
`ask_off` must be the running-sum encoding of the per-row element counts
of the in-window rows. -/

/-- The timestamp each of the `rows` iterations of the row loop sees
(`take()` yields value 0 past the end of the column). -/
def rowTsList : Nat → List Entry → List Int
  | 0, _ => []
  | r + 1, ts => (takeE ts).1.value :: rowTsList r (takeE ts).2

/-- The ask-side element count of each of the `rows` rows, in row order
(the claim's "number of list elements decoded for row i"). -/
def askCountsList (sel : DeltaSelect) : Nat → List Entry → List Entry → List Nat
  | 0, _, _ => []
  | r + 1, apx, aqty =>
    let a := askRowConsume sel apx aqty
    a.count :: askCountsList sel r a.pxRest a.qtyRest

/-- The bid-side element count of each of the `rows` rows, in row order. -/
def bidCountsList (sel : DeltaSelect) : Nat → List Entry → List Entry → List Nat
  | 0, _, _ => []
  | r + 1, bpx, bqty =>
    let b := bidRowConsume sel bpx bqty
    b.count :: bidCountsList sel r b.pxRest b.qtyRest

/-- Keep the elements of `xs` whose mask bit is true (row filtering by
the in-window mask). -/
def maskFilter (mask : List Bool) (xs : List Nat) : List Nat :=
  (mask.zip xs).filterMap (fun p => if p.1 then some p.2 else Option.none)

/-- Running-sum offsets starting from `base`, with the `uint32_t`
wrap-around of the stored offset vector. -/
def offsFrom (base : Nat) : List Nat → List Nat
  | [] => []
  | c :: cs => uint32Mod (base + c) :: offsFrom (uint32Mod (base + c)) cs

/-- Running-sum offsets starting from `base` in exact arithmetic. -/
def offsFromP (base : Nat) : List Nat → List Nat
  | [] => []
  | c :: cs => (base + c) :: offsFromP (base + c) cs

/-- The in-window mask of a depth row group's rows. -/
def deltaWinMask (s e : Int) (rg : DepthRG) : List Bool :=
  match decodeCol rg.ts with
  | .error _ => []
  | .ok tsE => (rowTsList rg.rows tsE).map (inWin s e)

/-- Specification-side: the ask-side element counts of the in-window
rows of a depth row group (empty when a needed decode fails — the row
group then yields no batch anyway). -/
def askCountsInWin (sel : DeltaSelect) (s e : Int) (rg : DepthRG) : List Nat :=
  match decodeCol rg.ts,
        (if sel.ask_px then decodeCol rg.apx else .ok []),
        (if sel.ask_qty then decodeCol rg.aqty else .ok []) with
  | .ok tsE, .ok apxE, .ok aqtyE =>
    maskFilter ((rowTsList rg.rows tsE).map (inWin s e)) (askCountsList sel rg.rows apxE aqtyE)
  | _, _, _ => []

/-- Specification-side: the bid-side element counts of the in-window
rows of a depth row group. -/
def bidCountsInWin (sel : DeltaSelect) (s e : Int) (rg : DepthRG) : List Nat :=
  match decodeCol rg.ts,
        (if sel.bid_px then decodeCol rg.bpx else .ok []),
        (if sel.bid_qty then decodeCol rg.bqty else .ok []) with
  | .ok tsE, .ok bpxE, .ok bqtyE =>
    maskFilter ((rowTsList rg.rows tsE).map (inWin s e)) (bidCountsList sel rg.rows bpxE bqtyE)
  | _, _, _ => []

/-- The row group `rg` (with file schema `sch`) is reachable from reader
state `st`: it belongs to the open file or to a pending candidate. -/
def containsRG {σ ρ : Type} (openF : String → Option (σ × List ρ))
    (st : ReaderState σ ρ) (sch : σ) (rg : ρ) : Prop :=
  (∃ rgs, st.cur = some (sch, rgs) ∧ rg ∈ rgs) ∨
  (∃ c ∈ st.pending, ∃ rgs, openF c.path = some (sch, rgs) ∧ rg ∈ rgs)

/-- Every reachable depth row group holds fewer than `2^32` level slots
per book side: the regime in which the `uint32_t` offset vectors cannot
wrap. -/
def boundedDeltaState (openF : String → Option (DepthSchema × List DepthRG))
    (st : ReaderState DepthSchema DepthRG) : Prop :=
  ∀ sch rg, containsRG openF st sch rg →
    rg.apx.levels.length + rg.aqty.levels.length < 4294967296 ∧
    rg.bpx.levels.length + rg.bqty.levels.length < 4294967296

/-- The check ladder of `FileStreamerDeltaCols::next_rg`: some required
(selected) column is missing from the schema. -/
def missingRequiredDelta (sel : DeltaSelect) (sch : DepthSchema) : Bool :=
  !sch.hasTs ||
  (sel.firstId && !sch.hasFid) ||
  (sel.lastId && !sch.hasLid) ||
  (sel.eventTime && !sch.hasEvt) ||
  (sel.ask_px && !sch.hasAskPx) ||
  (sel.ask_qty && !sch.hasAskQty) ||
  (sel.bid_px && !sch.hasBidPx) ||
  (sel.bid_qty && !sch.hasBidQty)

/-! ## Concrete fixtures

Small concrete datasets used by the closed example / counterexample /
witness theorems below. -/

/-- A required INT64 column (max definition and repetition level 0)
holding the given values. -/
def reqCol (vals : List Int) : LeafCol :=
  ⟨0, 0, vals.map (fun _ => (0, 0)), vals⟩

/-- A list-element leaf (one optional-list nesting level: max definition
level 3, max repetition level 1) with the given level and value streams. -/
def listCol (levels : List (Nat × Nat)) (vals : List Int) : LeafCol :=
  ⟨3, 1, levels, vals⟩

/-- An unused leaf column placeholder. -/
def noCol : LeafCol := ⟨0, 0, [], []⟩

/-- A depth schema containing every column. -/
def fullDepthSchema : DepthSchema := ⟨true, true, true, true, true, true, true, true⟩

/-- Start of 1970-01-02 UTC in nanoseconds: the day of the end-to-end
example. -/
def exDay : Int := 86400000000000

/-- The strict-layout path of the example day-file. -/
def exPath : String :=
  "/data/depth_spot/BTCUSDT/1970/1/bn_depth_spot_BTCUSDT_1970_1_2.parquet"

/-- The example day-file's single row group: 3 rows whose ask lists have
sizes [2, 0, 1] (level streams: two present elements, an explicit empty
list, one present element) and whose bid lists are all empty. -/
def exRG : DepthRG :=
  { rows := 3
    ts := reqCol [exDay + 10, exDay + 20, exDay + 30]
    fid := reqCol [1, 2, 3]
    lid := reqCol [4, 5, 6]
    evt := reqCol [7, 8, 9]
    apx := listCol [(3, 0), (3, 1), (1, 0), (3, 0)] [100, 101, 102]
    aqty := listCol [(3, 0), (3, 1), (1, 0), (3, 0)] [10, 11, 12]
    bpx := listCol [(1, 0), (1, 0), (1, 0)] []
    bqty := listCol [(1, 0), (1, 0), (1, 0)] [] }

/-- The example file system: exactly the one day-file exists. -/
def exEx : String → Bool := fun p => p == exPath

/-- The example open function: the one day-file opens to `exRG`. -/
def exOpenF : String → Option (DepthSchema × List DepthRG) :=
  fun p => if p == exPath then some (fullDepthSchema, [exRG]) else Option.none

/-- The batch the end-to-end example must produce. -/
def exBatch : DeltaBuffers :=
  { v_ts := [exDay + 10, exDay + 20, exDay + 30]
    v_fid := [1, 2, 3], v_lid := [4, 5, 6], v_evt := [7, 8, 9]
    ask_off := [0, 2, 2, 3], ask_px := [100, 101, 102], ask_qty := [10, 11, 12]
    bid_off := [0, 0, 0, 0], bid_px := [], bid_qty := [] }

/-- A one-row depth row group that decodes cleanly (ask lists of size 1,
bid lists empty), timestamp 5. -/
def okRG : DepthRG :=
  { rows := 1
    ts := reqCol [5], fid := reqCol [1], lid := reqCol [2], evt := reqCol [3]
    apx := listCol [(3, 0)] [7], aqty := listCol [(3, 0)] [8]
    bpx := listCol [(1, 0)] [], bqty := listCol [(1, 0)] [] }

/-- The batch `okRG` yields for a window containing timestamp 5. -/
def okBatch : DeltaBuffers :=
  { v_ts := [5], v_fid := [1], v_lid := [2], v_evt := [3]
    ask_off := [0, 1], ask_px := [7], ask_qty := [8]
    bid_off := [0, 0], bid_px := [], bid_qty := [] }

/-- A one-row depth row group whose ts column has a level slot but no
value: decoding raises the `"value_idx overflow"` structural fault. -/
def badRG : DepthRG :=
  { rows := 1
    ts := ⟨0, 0, [(0, 0)], []⟩
    fid := reqCol [1], lid := reqCol [2], evt := reqCol [3]
    apx := listCol [(3, 0)] [7], aqty := listCol [(3, 0)] [8]
    bpx := listCol [(1, 0)] [], bqty := listCol [(1, 0)] [] }

/-- Counterexample file system for the skip-policy claims: one candidate
file whose first row group is fine and whose second row group fails
mid-decode. -/
def c3OpenF : String → Option (DepthSchema × List DepthRG) :=
  fun p => if p == "f1" then some (fullDepthSchema, [okRG, badRG]) else Option.none

/-- Candidate records for the skip-policy counterexamples (the day range
fields are irrelevant to the reader loop). -/
def cand (p : String) : Candidate := ⟨p, 0, 86400000000000⟩

/-- File system for the missing-column counterexample: `f1` opens but its
schema lacks the `ts` column; `f2` is fully valid. -/
def c4OpenF : String → Option (DepthSchema × List DepthRG) :=
  fun p =>
    if p == "f1" then some (⟨false, true, true, true, true, true, true, true⟩, [okRG])
    else if p == "f2" then some (fullDepthSchema, [okRG]) else Option.none

/-- Element count per row of the 32-bit-overflow counterexample:
`2^31` list elements in each of two rows. -/
def kBig : Nat := 2147483648

/-- The level stream of one `2^31`-element row: a row-starting slot then
`2^31 - 1` list-continuation slots, every slot carrying a value. -/
def bigRowLevels : List (Nat × Nat) := (1, 0) :: List.replicate (kBig - 1) (1, 1)

/-- The ask-px leaf of the overflow counterexample: two `2^31`-element
rows (max definition level 1: every slot present). -/
def bigApx : LeafCol :=
  ⟨1, 1, bigRowLevels ++ bigRowLevels, List.replicate (2 * kBig) 5⟩

/-- Selection for the overflow counterexample: timestamps and ask prices
only. -/
def cbSel : DeltaSelect :=
  { ts := true, firstId := false, lastId := false, eventTime := false
    ask_px := true, ask_qty := false, bid_px := false, bid_qty := false }

/-- The overflow counterexample's row group: two in-window rows, each
with `2^31` ask-px list elements. -/
def cbRG : DepthRG :=
  { rows := 2
    ts := reqCol [1, 2], fid := noCol, lid := noCol, evt := noCol
    apx := bigApx, aqty := noCol, bpx := noCol, bqty := noCol }

/-- File system of the overflow counterexample. -/
def cbOpenF : String → Option (DepthSchema × List DepthRG) :=
  fun p => if p == "f1" then some (fullDepthSchema, [cbRG]) else Option.none

/-- The decoded entry of a row-starting slot of the overflow
counterexample: present, repetition level 0, value 5. -/
def e0CE : Entry := ⟨1, 0, true, 5, true⟩

/-- The decoded entry of a list-continuation slot of the overflow
counterexample: present, repetition level 1, value 5. -/
def e1CE : Entry := ⟨1, 1, true, 5, true⟩

/-- The decoded entry run of one `2^31`-element row of the overflow
counterexample. -/
def bigEnts : List Entry := e0CE :: List.replicate (kBig - 1) e1CE

/-- The decoded column state the row loop starts from in the overflow
counterexample. -/
def stCE : DeltaState :=
  { ts := [⟨0, 0, true, 1, true⟩, ⟨0, 0, true, 2, true⟩]
    fid := [], lid := [], evt := []
    apx := bigEnts ++ bigEnts, aqty := [], bpx := [], bqty := []
    buf := initDeltaBuffers cbSel }

/-- The batch the overflow counterexample's row group produces. -/
def cbBatch : DeltaBuffers := (deltaRowLoop cbSel 0 10 2 stCE).buf

/-! ## Lemmas: the consume loops of the list assemblers -/

theorem consumeRun_one (e : Entry) : consumeRun [e] = ([e], []) := rfl

theorem consumeRun_cons_cons (e n : Entry) (t : List Entry) :
    consumeRun (e :: n :: t) =
      if n.rl = 0 then ([e], n :: t)
      else (e :: (consumeRun (n :: t)).1, (consumeRun (n :: t)).2) := rfl

theorem consumePairs_cons_nil (p : Entry) (ps : List Entry) :
    consumePairs (p :: ps) [] = ⟨1, [p.value], [0], ps, []⟩ := rfl

theorem consumePairs_one_cons (p q : Entry) (qs : List Entry) :
    consumePairs [p] (q :: qs) = ⟨1, [p.value], [q.value], [], qs⟩ := rfl

theorem consumePairs_cons_one (p np q : Entry) (ps2 : List Entry) :
    consumePairs (p :: np :: ps2) [q] = ⟨1, [p.value], [q.value], np :: ps2, []⟩ := rfl

theorem consumePairs_cons_cons (p np q nq : Entry) (ps2 qs2 : List Entry) :
    consumePairs (p :: np :: ps2) (q :: nq :: qs2) =
      if np.rl = 0 ∨ np.rl ≠ nq.rl then ⟨1, [p.value], [q.value], np :: ps2, nq :: qs2⟩
      else ⟨(consumePairs (np :: ps2) (nq :: qs2)).count + 1,
            p.value :: (consumePairs (np :: ps2) (nq :: qs2)).pxVals,
            q.value :: (consumePairs (np :: ps2) (nq :: qs2)).qtyVals,
            (consumePairs (np :: ps2) (nq :: qs2)).pxRest,
            (consumePairs (np :: ps2) (nq :: qs2)).qtyRest⟩ := rfl

theorem consumeRun_append : ∀ es : List Entry, (consumeRun es).1 ++ (consumeRun es).2 = es
  | [] => rfl
  | [e] => rfl
  | e :: n :: t => by
    rw [consumeRun_cons_cons]
    by_cases h : n.rl = 0
    · simp [h]
    · simpa [h] using consumeRun_append (n :: t)

theorem consumeRun_head : ∀ (e : Entry) (rest : List Entry),
    ∃ t, (consumeRun (e :: rest)).1 = e :: t := by
  intro e rest
  match rest with
  | [] => exact ⟨[], rfl⟩
  | n :: t =>
    rw [consumeRun_cons_cons]
    by_cases h : n.rl = 0
    · exact ⟨[], by simp [h]⟩
    · exact ⟨(consumeRun (n :: t)).1, by simp [h]⟩

theorem consumeRun_ne_nil (e : Entry) (rest : List Entry) :
    (consumeRun (e :: rest)).1 ≠ [] := by
  obtain ⟨t, ht⟩ := consumeRun_head e rest
  simp [ht]

theorem consumeRun_tail_rl : ∀ es : List Entry, ∀ q ∈ (consumeRun es).1.tail, q.rl ≠ 0
  | [] => by simp [consumeRun]
  | [e] => by simp [consumeRun_one]
  | e :: n :: t => by
    rw [consumeRun_cons_cons]
    by_cases h : n.rl = 0
    · simp [h]
    · intro q hq
      simp only [h, if_false] at hq
      obtain ⟨t2, ht2⟩ := consumeRun_head n t
      rw [List.tail_cons, ht2] at hq
      rcases List.mem_cons.mp hq with rfl | hq2
      · exact h
      · exact consumeRun_tail_rl (n :: t) q (by rw [ht2]; simpa using hq2)

theorem consumeRun_stop : ∀ es : List Entry,
    (consumeRun es).2 = [] ∨ ∃ q t, (consumeRun es).2 = q :: t ∧ q.rl = 0
  | [] => Or.inl rfl
  | [e] => Or.inl rfl
  | e :: n :: t => by
    rw [consumeRun_cons_cons]
    by_cases h : n.rl = 0
    · exact Or.inr ⟨n, t, by simp [h], h⟩
    · simpa [h] using consumeRun_stop (n :: t)

theorem consumeRun_length_le : ∀ es : List Entry, (consumeRun es).2.length ≤ es.length := by
  intro es
  have h := consumeRun_append es
  calc (consumeRun es).2.length ≤ (consumeRun es).1.length + (consumeRun es).2.length :=
        Nat.le_add_left _ _
    _ = es.length := by rw [← List.length_append, h]

/-- Count-and-consumption accounting of the single-leaf assembler: the
returned count plus the remaining length never exceeds the input length. -/
theorem append_leaf_account (leaf : List Entry) :
    (append_list_from_leaf_for_row leaf).count + (append_list_from_leaf_for_row leaf).rest.length
      ≤ leaf.length := by
  match leaf with
  | [] => simp [append_list_from_leaf_for_row]
  | p :: rest =>
    by_cases h : p.has_value = false ∧ p.rl = 0
    · simp [append_list_from_leaf_for_row, h]
    · have hc := consumeRun_append (p :: rest)
      simp only [append_list_from_leaf_for_row, h, if_false]
      have : (consumeRun (p :: rest)).1.length + (consumeRun (p :: rest)).2.length
          = (p :: rest).length := by rw [← List.length_append, hc]
      omega

theorem append_leaf_count_vals (leaf : List Entry) :
    (append_list_from_leaf_for_row leaf).count
      = (append_list_from_leaf_for_row leaf).vals.length := by
  match leaf with
  | [] => rfl
  | p :: rest =>
    by_cases h : p.has_value = false ∧ p.rl = 0
    · simp [append_list_from_leaf_for_row, h]
    · simp [append_list_from_leaf_for_row, h]

theorem consumePairs_spec : ∀ (px qty : List Entry), px ≠ [] → qty ≠ [] →
    ∃ cpx cqty : List Entry,
      px = cpx ++ (consumePairs px qty).pxRest ∧
      qty = cqty ++ (consumePairs px qty).qtyRest ∧
      cpx.length = (consumePairs px qty).count ∧
      cqty.length = (consumePairs px qty).count ∧
      (consumePairs px qty).pxVals = cpx.map (fun q => q.value) ∧
      (consumePairs px qty).qtyVals = cqty.map (fun q => q.value) ∧
      ((consumePairs px qty).pxRest = [] ∨ (consumePairs px qty).qtyRest = [] ∨
       (∃ a t, (consumePairs px qty).pxRest = a :: t ∧ a.rl = 0) ∨
       (∃ a t b u, (consumePairs px qty).pxRest = a :: t ∧
         (consumePairs px qty).qtyRest = b :: u ∧ a.rl ≠ b.rl))
  | [], _, hpx, _ => absurd rfl hpx
  | _ :: _, [], _, hq => absurd rfl hq
  | [p], q :: qs, _, _ => by
    rw [consumePairs_one_cons]
    exact ⟨[p], [q], by simp, by simp, rfl, rfl, rfl, rfl, Or.inl rfl⟩
  | p :: np :: ps2, [q], _, _ => by
    rw [consumePairs_cons_one]
    exact ⟨[p], [q], by simp, by simp, rfl, rfl, rfl, rfl, Or.inr (Or.inl rfl)⟩
  | p :: np :: ps2, q :: nq :: qs2, _, _ => by
    rw [consumePairs_cons_cons]
    by_cases h : np.rl = 0 ∨ np.rl ≠ nq.rl
    · rw [if_pos h]
      refine ⟨[p], [q], by simp, by simp, rfl, rfl, rfl, rfl, ?_⟩
      rcases h with h | h
      · exact Or.inr (Or.inr (Or.inl ⟨np, ps2, rfl, h⟩))
      · exact Or.inr (Or.inr (Or.inr ⟨np, ps2, nq, qs2, rfl, rfl, h⟩))
    · rw [if_neg h]
      obtain ⟨cpx, cqty, h1, h2, h3, h4, h5, h6, h7⟩ :=
        consumePairs_spec (np :: ps2) (nq :: qs2) (by simp) (by simp)
      exact ⟨p :: cpx, q :: cqty, by simpa using h1, by simpa using h2,
        by simpa using h3, by simpa using h4, by simpa using h5, by simpa using h6, h7⟩

theorem consumePairs_count_px : ∀ px qty : List Entry,
    (consumePairs px qty).count = (consumePairs px qty).pxVals.length
  | [], _ => rfl
  | p :: ps, [] => by rw [consumePairs_cons_nil]; rfl
  | [p], q :: qs => by rw [consumePairs_one_cons]; rfl
  | p :: np :: ps2, [q] => by rw [consumePairs_cons_one]; rfl
  | p :: np :: ps2, q :: nq :: qs2 => by
    rw [consumePairs_cons_cons]
    by_cases h : np.rl = 0 ∨ np.rl ≠ nq.rl
    · rw [if_pos h]; rfl
    · rw [if_neg h]
      simpa using consumePairs_count_px (np :: ps2) (nq :: qs2)

theorem consumePairs_count_qty : ∀ px qty : List Entry,
    (consumePairs px qty).count = (consumePairs px qty).qtyVals.length
  | [], _ => rfl
  | p :: ps, [] => by rw [consumePairs_cons_nil]; rfl
  | [p], q :: qs => by rw [consumePairs_one_cons]; rfl
  | p :: np :: ps2, [q] => by rw [consumePairs_cons_one]; rfl
  | p :: np :: ps2, q :: nq :: qs2 => by
    rw [consumePairs_cons_cons]
    by_cases h : np.rl = 0 ∨ np.rl ≠ nq.rl
    · rw [if_pos h]; rfl
    · rw [if_neg h]
      simpa using consumePairs_count_qty (np :: ps2) (nq :: qs2)

theorem consumePairs_account : ∀ px qty : List Entry,
    (consumePairs px qty).count + (consumePairs px qty).pxRest.length +
      (consumePairs px qty).qtyRest.length ≤ px.length + qty.length := by
  intro px qty
  match px, qty with
  | [], qs => simp [consumePairs]
  | p :: ps, [] => rw [consumePairs_cons_nil]; simp; omega
  | p :: ps, q :: qs =>
    obtain ⟨cpx, cqty, h1, h2, h3, h4, -, -, -⟩ :=
      consumePairs_spec (p :: ps) (q :: qs) (by simp) (by simp)
    have l1 := congrArg List.length h1
    have l2 := congrArg List.length h2
    rw [List.length_append] at l1 l2
    omega

/-- Count-and-consumption accounting of the paired assembler. -/
theorem append_pairs_account (px qty : List Entry) :
    (append_list_pairs_for_row_typed px qty).count +
      (append_list_pairs_for_row_typed px qty).pxRest.length +
      (append_list_pairs_for_row_typed px qty).qtyRest.length ≤ px.length + qty.length := by
  match px, qty with
  | [], _ => simp [append_list_pairs_for_row_typed]
  | _ :: _, [] => simp [append_list_pairs_for_row_typed]
  | p :: ps, q :: qs =>
    by_cases h : (p.has_value = false ∧ p.rl = 0) ∧ (q.has_value = false ∧ q.rl = 0)
    · simp [append_list_pairs_for_row_typed, h]; omega
    · have := consumePairs_account (p :: ps) (q :: qs)
      simpa [append_list_pairs_for_row_typed, h] using this

/-- Accounting for the ask-side per-row consumption. -/
theorem askRowConsume_account (sel : DeltaSelect) (apx aqty : List Entry) :
    (askRowConsume sel apx aqty).count + (askRowConsume sel apx aqty).pxRest.length +
      (askRowConsume sel apx aqty).qtyRest.length ≤ apx.length + aqty.length := by
  cases hx : sel.ask_px <;> cases hy : sel.ask_qty
  · simp [askRowConsume, hx, hy]
  · have := append_leaf_account aqty
    simp only [askRowConsume, hx, hy, Bool.false_and, Bool.false_eq_true, if_false, if_true]
    omega
  · have := append_leaf_account apx
    simp only [askRowConsume, hx, hy, Bool.and_false, Bool.false_eq_true, if_false, if_true]
    omega
  · simpa [askRowConsume, hx, hy] using append_pairs_account apx aqty

/-- Accounting for the bid-side per-row consumption. -/
theorem bidRowConsume_account (sel : DeltaSelect) (bpx bqty : List Entry) :
    (bidRowConsume sel bpx bqty).count + (bidRowConsume sel bpx bqty).pxRest.length +
      (bidRowConsume sel bpx bqty).qtyRest.length ≤ bpx.length + bqty.length := by
  cases hx : sel.bid_px <;> cases hy : sel.bid_qty
  · simp [bidRowConsume, hx, hy]
  · have := append_leaf_account bqty
    simp only [bidRowConsume, hx, hy, Bool.false_and, Bool.false_eq_true, if_false, if_true]
    omega
  · have := append_leaf_account bpx
    simp only [bidRowConsume, hx, hy, Bool.and_false, Bool.false_eq_true, if_false, if_true]
    omega
  · simpa [bidRowConsume, hx, hy] using append_pairs_account bpx bqty

/-! ## Claim C6: the single-leaf list assembler -/

/-- C6 (confirmed).  For every row decoded through the single-leaf List
Assembler: an absent first entry with repetition level zero consumes
exactly that one entry and yields an empty list (not an error);
otherwise an initial run is consumed whose later entries all have
nonzero repetition level, stopping exactly when the next entry has
repetition level zero or the column ends; and the returned count always
equals the number of elements appended. -/
theorem spec_c6 (leaf : List Entry) :
    ((append_list_from_leaf_for_row leaf).count
        = (append_list_from_leaf_for_row leaf).vals.length) ∧
    (leaf = [] → append_list_from_leaf_for_row leaf = ⟨0, [], []⟩) ∧
    (∀ p rest, leaf = p :: rest → p.has_value = false → p.rl = 0 →
      append_list_from_leaf_for_row leaf = ⟨0, [], rest⟩) ∧
    (∀ p rest, leaf = p :: rest → ¬(p.has_value = false ∧ p.rl = 0) →
      ∃ run remain : List Entry,
        leaf = run ++ remain ∧ run ≠ [] ∧
        (∀ q ∈ run.tail, q.rl ≠ 0) ∧
        (remain = [] ∨ ∃ q t, remain = q :: t ∧ q.rl = 0) ∧
        append_list_from_leaf_for_row leaf =
          ⟨run.length, run.map (fun q => q.value), remain⟩) := by
  refine ⟨append_leaf_count_vals leaf, ?_, ?_, ?_⟩
  · rintro rfl; rfl
  · rintro p rest rfl hv hr
    simp [append_list_from_leaf_for_row, hv, hr]
  · rintro p rest rfl hne
    refine ⟨(consumeRun (p :: rest)).1, (consumeRun (p :: rest)).2,
      (consumeRun_append (p :: rest)).symm, consumeRun_ne_nil p rest,
      consumeRun_tail_rl (p :: rest), consumeRun_stop (p :: rest), ?_⟩
    simp [append_list_from_leaf_for_row, hne]

/-- Witness for C6: a concrete explicit-empty-list row (absent entry,
repetition level zero) consumes one entry and appends nothing, and a
concrete two-element row is consumed entirely. -/
theorem spec_c6_witness :
    append_list_from_leaf_for_row [⟨1, 0, false, 0, true⟩, ⟨3, 0, true, 7, true⟩]
        = ⟨0, [], [⟨3, 0, true, 7, true⟩]⟩ ∧
    append_list_from_leaf_for_row [⟨3, 0, true, 7, true⟩, ⟨3, 1, true, 8, true⟩]
        = ⟨2, [7, 8], []⟩ := by
  exact ⟨(spec_c6 [⟨1, 0, false, 0, true⟩, ⟨3, 0, true, 7, true⟩]).2.2.1
    ⟨1, 0, false, 0, true⟩ [⟨3, 0, true, 7, true⟩] rfl rfl rfl, by decide⟩

/-! ## Claim C7: the paired list assembler -/

/-- C7 (confirmed).  The paired assembler advances the two decoders
lock-step, appending one element to each output per step (the two value
lists and the count coincide in length, and the consumed prefixes of the
two legs have that same length); when the next repetition levels of the
two legs disagree the row's list is silently truncated at that point
(the loop stops without error — the stop condition is exhaustion of
either leg, a next repetition level of zero, or a repetition-level
disagreement). -/
theorem spec_c7 (px qty : List Entry) :
    ((append_list_pairs_for_row_typed px qty).count
        = (append_list_pairs_for_row_typed px qty).pxVals.length) ∧
    ((append_list_pairs_for_row_typed px qty).count
        = (append_list_pairs_for_row_typed px qty).qtyVals.length) ∧
    (px = [] ∨ qty = [] → append_list_pairs_for_row_typed px qty = ⟨0, [], [], px, qty⟩) ∧
    (∀ p ps q qs, px = p :: ps → qty = q :: qs →
      ¬((p.has_value = false ∧ p.rl = 0) ∧ (q.has_value = false ∧ q.rl = 0)) →
      ∃ cpx cqty : List Entry,
        px = cpx ++ (append_list_pairs_for_row_typed px qty).pxRest ∧
        qty = cqty ++ (append_list_pairs_for_row_typed px qty).qtyRest ∧
        cpx.length = (append_list_pairs_for_row_typed px qty).count ∧
        cqty.length = (append_list_pairs_for_row_typed px qty).count ∧
        (append_list_pairs_for_row_typed px qty).pxVals = cpx.map (fun a => a.value) ∧
        (append_list_pairs_for_row_typed px qty).qtyVals = cqty.map (fun a => a.value) ∧
        ((append_list_pairs_for_row_typed px qty).pxRest = [] ∨
         (append_list_pairs_for_row_typed px qty).qtyRest = [] ∨
         (∃ a t, (append_list_pairs_for_row_typed px qty).pxRest = a :: t ∧ a.rl = 0) ∨
         (∃ a t b u, (append_list_pairs_for_row_typed px qty).pxRest = a :: t ∧
           (append_list_pairs_for_row_typed px qty).qtyRest = b :: u ∧ a.rl ≠ b.rl))) := by
  refine ⟨?_, ?_, ?_, ?_⟩
  · match px, qty with
    | [], _ => rfl
    | _ :: _, [] => rfl
    | p :: ps, q :: qs =>
      by_cases h : (p.has_value = false ∧ p.rl = 0) ∧ (q.has_value = false ∧ q.rl = 0)
      · simp [append_list_pairs_for_row_typed, h]
      · simpa [append_list_pairs_for_row_typed, h] using consumePairs_count_px (p :: ps) (q :: qs)
  · match px, qty with
    | [], _ => rfl
    | _ :: _, [] => rfl
    | p :: ps, q :: qs =>
      by_cases h : (p.has_value = false ∧ p.rl = 0) ∧ (q.has_value = false ∧ q.rl = 0)
      · simp [append_list_pairs_for_row_typed, h]
      · simpa [append_list_pairs_for_row_typed, h] using consumePairs_count_qty (p :: ps) (q :: qs)
  · rintro (rfl | rfl)
    · rfl
    · match px with
      | [] => rfl
      | _ :: _ => rfl
  · rintro p ps q qs rfl rfl hne
    have heq : append_list_pairs_for_row_typed (p :: ps) (q :: qs)
        = consumePairs (p :: ps) (q :: qs) := by
      simp [append_list_pairs_for_row_typed, hne]
    rw [heq]
    exact consumePairs_spec (p :: ps) (q :: qs) (by simp) (by simp)

/-- Witness for C7: on two concrete legs whose repetition levels
disagree after one pair, exactly one pair is appended to each output and
the remainders start at the disagreement point. -/
theorem spec_c7_witness :
    append_list_pairs_for_row_typed
        [⟨3, 0, true, 1, true⟩, ⟨3, 1, true, 2, true⟩]
        [⟨3, 0, true, 9, true⟩, ⟨3, 0, true, 8, true⟩]
      = ⟨1, [1], [9], [⟨3, 1, true, 2, true⟩], [⟨3, 0, true, 8, true⟩]⟩ := by
  obtain ⟨cpx, cqty, h1, h2, h3, h4, h5, h6, h7⟩ :=
    (spec_c7 [⟨3, 0, true, 1, true⟩, ⟨3, 1, true, 2, true⟩]
      [⟨3, 0, true, 9, true⟩, ⟨3, 0, true, 8, true⟩]).2.2.2
      ⟨3, 0, true, 1, true⟩ [⟨3, 1, true, 2, true⟩]
      ⟨3, 0, true, 9, true⟩ [⟨3, 0, true, 8, true⟩] rfl rfl (by simp)
  decide

/-! ## Lemmas: the depth row loop -/

theorem deltaRowStep_ts (sel : DeltaSelect) (s e : Int) (st : DeltaState) :
    (deltaRowStep sel s e st).ts = (takeE st.ts).2 := rfl

theorem deltaRowStep_apx (sel : DeltaSelect) (s e : Int) (st : DeltaState) :
    (deltaRowStep sel s e st).apx = (askRowConsume sel st.apx st.aqty).pxRest := rfl

theorem deltaRowStep_aqty (sel : DeltaSelect) (s e : Int) (st : DeltaState) :
    (deltaRowStep sel s e st).aqty = (askRowConsume sel st.apx st.aqty).qtyRest := rfl

theorem deltaRowStep_bpx (sel : DeltaSelect) (s e : Int) (st : DeltaState) :
    (deltaRowStep sel s e st).bpx = (bidRowConsume sel st.bpx st.bqty).pxRest := rfl

theorem deltaRowStep_bqty (sel : DeltaSelect) (s e : Int) (st : DeltaState) :
    (deltaRowStep sel s e st).bqty = (bidRowConsume sel st.bpx st.bqty).qtyRest := rfl

theorem deltaRowStep_v_ts (sel : DeltaSelect) (s e : Int) (st : DeltaState) :
    (deltaRowStep sel s e st).buf.v_ts
      = st.buf.v_ts ++ (if inWin s e (takeE st.ts).1.value then [(takeE st.ts).1.value] else []) :=
  rfl

theorem deltaRowStep_ask_off (sel : DeltaSelect) (s e : Int) (st : DeltaState) :
    (deltaRowStep sel s e st).buf.ask_off
      = st.buf.ask_off ++
        (if inWin s e (takeE st.ts).1.value && needAsks sel then
          [uint32Mod (st.buf.ask_off.getLastD 0 + (askRowConsume sel st.apx st.aqty).count)]
        else []) := rfl

theorem deltaRowStep_bid_off (sel : DeltaSelect) (s e : Int) (st : DeltaState) :
    (deltaRowStep sel s e st).buf.bid_off
      = st.buf.bid_off ++
        (if inWin s e (takeE st.ts).1.value && needBids sel then
          [uint32Mod (st.buf.bid_off.getLastD 0 + (bidRowConsume sel st.bpx st.bqty).count)]
        else []) := rfl

theorem rowTsList_length : ∀ (rows : Nat) (ts : List Entry), (rowTsList rows ts).length = rows
  | 0, _ => rfl
  | r + 1, ts => by simp [rowTsList, rowTsList_length r]

theorem askCountsList_length (sel : DeltaSelect) :
    ∀ (rows : Nat) (apx aqty : List Entry), (askCountsList sel rows apx aqty).length = rows
  | 0, _, _ => rfl
  | r + 1, apx, aqty => by simp [askCountsList, askCountsList_length sel r]

theorem bidCountsList_length (sel : DeltaSelect) :
    ∀ (rows : Nat) (bpx bqty : List Entry), (bidCountsList sel rows bpx bqty).length = rows
  | 0, _, _ => rfl
  | r + 1, bpx, bqty => by simp [bidCountsList, bidCountsList_length sel r]

/-- The list-side element counts over all rows never exceed the total
entry count of the two legs (each row consumes at least as many entries
as it counts). -/
theorem askCountsList_sum_le (sel : DeltaSelect) :
    ∀ (rows : Nat) (apx aqty : List Entry),
      (askCountsList sel rows apx aqty).sum ≤ apx.length + aqty.length
  | 0, _, _ => Nat.zero_le _
  | r + 1, apx, aqty => by
    have hstep := askRowConsume_account sel apx aqty
    have hrec := askCountsList_sum_le sel r (askRowConsume sel apx aqty).pxRest
      (askRowConsume sel apx aqty).qtyRest
    simp only [askCountsList, List.sum_cons]
    omega

theorem bidCountsList_sum_le (sel : DeltaSelect) :
    ∀ (rows : Nat) (bpx bqty : List Entry),
      (bidCountsList sel rows bpx bqty).sum ≤ bpx.length + bqty.length
  | 0, _, _ => Nat.zero_le _
  | r + 1, bpx, bqty => by
    have hstep := bidRowConsume_account sel bpx bqty
    have hrec := bidCountsList_sum_le sel r (bidRowConsume sel bpx bqty).pxRest
      (bidRowConsume sel bpx bqty).qtyRest
    simp only [bidCountsList, List.sum_cons]
    omega

/-- The `v_ts` buffer after the row loop: what was there before plus the
in-window timestamps of the processed rows, in row order. -/
theorem deltaRowLoop_v_ts (sel : DeltaSelect) (s e : Int) :
    ∀ (rows : Nat) (st : DeltaState),
      (deltaRowLoop sel s e rows st).buf.v_ts
        = st.buf.v_ts ++ (rowTsList rows st.ts).filter (inWin s e)
  | 0, st => by simp [deltaRowLoop, rowTsList]
  | r + 1, st => by
    rw [deltaRowLoop, deltaRowLoop_v_ts sel s e r, deltaRowStep_v_ts, deltaRowStep_ts]
    by_cases h : inWin s e (takeE st.ts).1.value
    · simp [rowTsList, h, List.append_assoc]
    · simp [rowTsList, h]

theorem getLastD_append_singleton (l : List Nat) (x d : Nat) :
    (l ++ [x]).getLastD d = x := by
  cases l <;> simp [List.getLastD]

/-- The `ask_off` buffer after the row loop, when a book side is
selected: the prior contents extended by the wrapped running sums of the
in-window rows' element counts. -/
theorem deltaRowLoop_ask_off (sel : DeltaSelect) (s e : Int) (hsel : needAsks sel = true) :
    ∀ (rows : Nat) (st : DeltaState),
      (deltaRowLoop sel s e rows st).buf.ask_off
        = st.buf.ask_off ++
          offsFrom (st.buf.ask_off.getLastD 0)
            (maskFilter ((rowTsList rows st.ts).map (inWin s e))
              (askCountsList sel rows st.apx st.aqty))
  | 0, st => by simp [deltaRowLoop, rowTsList, askCountsList, maskFilter, offsFrom]
  | r + 1, st => by
    rw [deltaRowLoop, deltaRowLoop_ask_off sel s e hsel r, deltaRowStep_ask_off,
      deltaRowStep_ts, deltaRowStep_apx, deltaRowStep_aqty]
    simp only [rowTsList, askCountsList, List.map_cons, maskFilter, List.zip_cons_cons,
      List.filterMap_cons]
    by_cases h : inWin s e (takeE st.ts).1.value
    · simp only [h, hsel, Bool.and_self, if_true, getLastD_append_singleton]
      rw [offsFrom, List.append_assoc]
      simp
    · simp [h]

/-- The `bid_off` buffer after the row loop, when the bid side is
selected. -/
theorem deltaRowLoop_bid_off (sel : DeltaSelect) (s e : Int) (hsel : needBids sel = true) :
    ∀ (rows : Nat) (st : DeltaState),
      (deltaRowLoop sel s e rows st).buf.bid_off
        = st.buf.bid_off ++
          offsFrom (st.buf.bid_off.getLastD 0)
            (maskFilter ((rowTsList rows st.ts).map (inWin s e))
              (bidCountsList sel rows st.bpx st.bqty))
  | 0, st => by simp [deltaRowLoop, rowTsList, bidCountsList, maskFilter, offsFrom]
  | r + 1, st => by
    rw [deltaRowLoop, deltaRowLoop_bid_off sel s e hsel r, deltaRowStep_bid_off,
      deltaRowStep_ts, deltaRowStep_bpx, deltaRowStep_bqty]
    simp only [rowTsList, bidCountsList, List.map_cons, maskFilter, List.zip_cons_cons,
      List.filterMap_cons]
    by_cases h : inWin s e (takeE st.ts).1.value
    · simp only [h, hsel, Bool.and_self, if_true, getLastD_append_singleton]
      rw [offsFrom, List.append_assoc]
      simp
    · simp [h]

/-! ## Lemmas: offset running sums -/

theorem uint32Mod_eq_self {n : Nat} (h : n < 4294967296) : uint32Mod n = n :=
  Nat.mod_eq_of_lt h

theorem offsFrom_eq_offsFromP : ∀ (l : List Nat) (base : Nat),
    base + l.sum < 4294967296 → offsFrom base l = offsFromP base l
  | [], _, _ => rfl
  | c :: cs, base, h => by
    have hlt : base + c < 4294967296 := by
      have := List.sum_cons (a := c) (l := cs)
      omega
    rw [offsFrom, offsFromP, uint32Mod_eq_self hlt,
      offsFrom_eq_offsFromP cs (base + c) (by simp only [List.sum_cons] at h; omega)]

theorem offsFromP_length : ∀ (l : List Nat) (base : Nat), (offsFromP base l).length = l.length
  | [], _ => rfl
  | c :: cs, base => by simp [offsFromP, offsFromP_length cs]

/-- The running-sum offsets are monotonically non-decreasing, from their
base. -/
theorem offsFromP_chain : ∀ (l : List Nat) (base : Nat),
    List.Chain' (fun a b => a ≤ b) (base :: offsFromP base l)
  | [], _ => by simp [offsFromP]
  | c :: cs, base => by
    rw [offsFromP]
    exact List.Chain'.cons (Nat.le_add_right base c) (offsFromP_chain cs (base + c))

/-- Consecutive running-sum offsets differ by exactly the counts. -/
theorem offsFromP_getD : ∀ (l : List Nat) (base : Nat) (i : Nat), i < l.length →
    (base :: offsFromP base l).getD (i + 1) 0
      = (base :: offsFromP base l).getD i 0 + l.getD i 0
  | [], _, i, h => by simp at h
  | c :: cs, base, 0, _ => by simp [offsFromP]
  | c :: cs, base, i + 1, h => by
    have := offsFromP_getD cs (base + c) i (by simpa using h)
    simpa [offsFromP] using this

theorem maskFilter_sum_le : ∀ (mask : List Bool) (xs : List Nat),
    (maskFilter mask xs).sum ≤ xs.sum
  | [], _ => Nat.zero_le _
  | _ :: _, [] => Nat.zero_le _
  | m :: mask, x :: xs => by
    have := maskFilter_sum_le mask xs
    by_cases hm : m = true
    · simp [maskFilter, hm] at this ⊢; omega
    · simp at hm
      simp [maskFilter, hm] at this ⊢; omega

/-- Filtering counts by the window mask keeps exactly as many entries as
the timestamp filter keeps rows. -/
theorem maskFilter_length_map (p : Int → Bool) : ∀ (ts : List Int) (xs : List Nat),
    ts.length = xs.length →
    (maskFilter (ts.map p) xs).length = (ts.filter p).length
  | [], [], _ => rfl
  | [], _ :: _, h => by simp at h
  | _ :: _, [], h => by simp at h
  | t :: ts, x :: xs, h => by
    have := maskFilter_length_map p ts xs (by simpa using h)
    by_cases hp : p t = true
    · simp [maskFilter, List.filter, hp] at this ⊢; omega
    · simp at hp
      simp [maskFilter, List.filter, hp] at this ⊢; exact this

/-! ## Lemmas: inversion of the row-group bodies -/

theorem except_bind_ok {α β : Type} (a : Except String α) (f : α → Except String β) (v : β) :
    a.bind f = .ok v ↔ ∃ w, a = .ok w ∧ f w = .ok v := by
  cases a <;> simp [Except.bind]

set_option maxHeartbeats 1000000 in
/-- Successful depth row-group decode, unfolded: all eight presence
checks passed, every needed column decoded, and the result is the row
loop's buffers. -/
theorem processDeltaRG_ok {sel : DeltaSelect} {s e : Int} {sch : DepthSchema} {rg : DepthRG}
    {b : DeltaBuffers} (h : processDeltaRG sel s e sch rg = .ok b) :
    ∃ tsE fidE lidE evtE apxE aqtyE bpxE bqtyE,
      decodeCol rg.ts = .ok tsE ∧
      (if sel.firstId then decodeCol rg.fid else .ok []) = .ok fidE ∧
      (if sel.lastId then decodeCol rg.lid else .ok []) = .ok lidE ∧
      (if sel.eventTime then decodeCol rg.evt else .ok []) = .ok evtE ∧
      (if sel.ask_px then decodeCol rg.apx else .ok []) = .ok apxE ∧
      (if sel.ask_qty then decodeCol rg.aqty else .ok []) = .ok aqtyE ∧
      (if sel.bid_px then decodeCol rg.bpx else .ok []) = .ok bpxE ∧
      (if sel.bid_qty then decodeCol rg.bqty else .ok []) = .ok bqtyE ∧
      b = (deltaRowLoop sel s e rg.rows
        { ts := tsE, fid := fidE, lid := lidE, evt := evtE
          apx := apxE, aqty := aqtyE, bpx := bpxE, bqty := bqtyE
          buf := initDeltaBuffers sel }).buf := by
  unfold processDeltaRG at h
  split at h; · exact absurd h (by simp)
  split at h; · exact absurd h (by simp)
  split at h; · exact absurd h (by simp)
  split at h; · exact absurd h (by simp)
  split at h; · exact absurd h (by simp)
  split at h; · exact absurd h (by simp)
  split at h; · exact absurd h (by simp)
  split at h; · exact absurd h (by simp)
  rw [except_bind_ok] at h; obtain ⟨tsE, h1, h⟩ := h
  rw [except_bind_ok] at h; obtain ⟨fidE, h2, h⟩ := h
  rw [except_bind_ok] at h; obtain ⟨lidE, h3, h⟩ := h
  rw [except_bind_ok] at h; obtain ⟨evtE, h4, h⟩ := h
  rw [except_bind_ok] at h; obtain ⟨apxE, h5, h⟩ := h
  rw [except_bind_ok] at h; obtain ⟨aqtyE, h6, h⟩ := h
  rw [except_bind_ok] at h; obtain ⟨bpxE, h7, h⟩ := h
  rw [except_bind_ok] at h; obtain ⟨bqtyE, h8, h⟩ := h
  exact ⟨tsE, fidE, lidE, evtE, apxE, aqtyE, bpxE, bqtyE,
    h1, h2, h3, h4, h5, h6, h7, h8, by cases h; rfl⟩

/-! ## Lemmas: the generic batch-reader loop -/

section ReaderLemmas

variable {σ ρ β : Type}
variable {openF : String → Option (σ × List ρ)}
variable {process : σ → ρ → Except String (Option β)}

theorem nextRgLoop_some {b : β} : ∀ {rgs rest : List ρ}
    (h : nextRgLoop (β := β) process0 rgs = .ok (some (b, rest))),
    (∃ rg ∈ rgs, process0 rg = .ok (some b)) ∧
    rest.length < rgs.length ∧
    fileBatches process0 rgs = b :: fileBatches process0 rest := by
  intro rgs
  induction rgs with
  | nil => intro rest h; simp [nextRgLoop] at h
  | cons rg rgs ih =>
    intro rest h
    rw [nextRgLoop] at h
    match hp : process0 rg with
    | .error msg => rw [hp] at h; cases h
    | .ok Option.none =>
      rw [hp] at h
      obtain ⟨⟨rg2, hm, hp2⟩, hlen, hfb⟩ := ih h
      exact ⟨⟨rg2, List.mem_cons_of_mem _ hm, hp2⟩, Nat.lt_succ_of_lt hlen,
        by rw [fileBatches, hp, hfb]⟩
    | .ok (some b2) =>
      rw [hp] at h
      cases h
      exact ⟨⟨rg, List.mem_cons_self _ _, hp⟩, Nat.lt_succ_self _,
        by rw [fileBatches, hp]⟩

theorem nextRgLoop_not_some : ∀ {rgs : List ρ0},
    (∀ (b : β) rest, nextRgLoop process0 rgs ≠ .ok (some (b, rest))) →
    fileBatches process0 rgs = [] := by
  intro rgs
  induction rgs with
  | nil => intro _; rfl
  | cons rg rgs ih =>
    intro h
    match hp : process0 rg with
    | .error msg => simp [fileBatches, hp]
    | .ok Option.none =>
      rw [fileBatches, hp]
      exact ih (fun b rest hcontra => h b rest (by rw [nextRgLoop, hp]; exact hcontra))
    | .ok (some b) =>
      exact absurd (show nextRgLoop process0 (rg :: rgs) = .ok (some (b, rgs)) by
        rw [nextRgLoop, hp]) (h b rgs)

theorem openLoop_some {b : β} {sch : σ} : ∀ {pending : List Candidate} {rgs2 : List ρ}
    {pend : List Candidate}
    (h : openLoop openF process pending = some (b, (sch, rgs2), pend)),
    (∃ c ∈ pending, ∃ rgs0, openF c.path = some (sch, rgs0) ∧
      nextRgLoop (process sch) rgs0 = .ok (some (b, rgs2))) ∧
    pending.flatMap (candBatches openF process) =
      b :: (fileBatches (process sch) rgs2 ++ pend.flatMap (candBatches openF process)) ∧
    2 + rgs2.length + (pend.map (candWeight openF)).sum ≤
      (pending.map (candWeight openF)).sum := by
  intro pending
  induction pending with
  | nil => intro rgs2 pend h; simp [openLoop] at h
  | cons c cs ih =>
    intro rgs2 pend h
    match hop : openF c.path with
    | Option.none =>
      simp only [openLoop, hop] at h
      obtain ⟨⟨c2, hm, hrest⟩, hfb, hw⟩ := ih h
      refine ⟨⟨c2, List.mem_cons_of_mem _ hm, hrest⟩, ?_, ?_⟩
      · simp only [List.flatMap_cons, candBatches, hop, List.nil_append, hfb]
      · simp only [List.map_cons, List.sum_cons]
        omega
    | some (sch0, rgs0) =>
      match hnl : nextRgLoop (process sch0) rgs0 with
      | .error msg =>
        simp only [openLoop, hop, hnl] at h
        obtain ⟨⟨c2, hm, hrest⟩, hfb, hw⟩ := ih h
        refine ⟨⟨c2, List.mem_cons_of_mem _ hm, hrest⟩, ?_, ?_⟩
        · have hempty : fileBatches (process sch0) rgs0 = [] :=
            nextRgLoop_not_some (by intro b2 r2 hc; rw [hnl] at hc; cases hc)
          simp only [List.flatMap_cons, candBatches, hop, hempty, List.nil_append, hfb]
        · simp only [List.map_cons, List.sum_cons]
          omega
      | .ok Option.none =>
        simp only [openLoop, hop, hnl] at h
        obtain ⟨⟨c2, hm, hrest⟩, hfb, hw⟩ := ih h
        refine ⟨⟨c2, List.mem_cons_of_mem _ hm, hrest⟩, ?_, ?_⟩
        · have hempty : fileBatches (process sch0) rgs0 = [] :=
            nextRgLoop_not_some (by intro b2 r2 hc; rw [hnl] at hc; cases hc)
          simp only [List.flatMap_cons, candBatches, hop, hempty, List.nil_append, hfb]
        · simp only [List.map_cons, List.sum_cons]
          omega
      | .ok (some (b2, rgs3)) =>
        simp only [openLoop, hop, hnl] at h
        cases h
        obtain ⟨-, hlen, hfb⟩ := nextRgLoop_some hnl
        refine ⟨⟨c, List.mem_cons_self _ _, rgs0, hop, hnl⟩, ?_, ?_⟩
        · simp only [List.flatMap_cons, candBatches, hop, hfb]
          simp
        · simp only [List.map_cons, List.sum_cons, candWeight, hop]
          omega

theorem openLoop_none : ∀ {pending : List Candidate}
    (h : openLoop (β := β) openF process pending = Option.none),
    pending.flatMap (candBatches openF process) = [] := by
  intro pending
  induction pending with
  | nil => intro _; rfl
  | cons c cs ih =>
    intro h
    rw [List.flatMap_cons]
    match hop : openF c.path with
    | Option.none =>
      simp only [openLoop, hop] at h
      simp only [candBatches, hop, List.nil_append]
      exact ih h
    | some (sch0, rgs0) =>
      match hnl : nextRgLoop (process sch0) rgs0 with
      | .error msg =>
        simp only [openLoop, hop, hnl] at h
        have hempty : fileBatches (process sch0) rgs0 = [] :=
          nextRgLoop_not_some (by intro b2 r2 hc; rw [hnl] at hc; cases hc)
        simp only [candBatches, hop, hempty, List.nil_append]
        exact ih h
      | .ok Option.none =>
        simp only [openLoop, hop, hnl] at h
        have hempty : fileBatches (process sch0) rgs0 = [] :=
          nextRgLoop_not_some (by intro b2 r2 hc; rw [hnl] at hc; cases hc)
        simp only [candBatches, hop, hempty, List.nil_append]
        exact ih h
      | .ok (some (b2, rgs3)) => simp only [openLoop, hop, hnl] at h; cases h

/-- Exhaustion is honest: when `next` returns false, no batch remains. -/
theorem readerNext_none {st : ReaderState σ ρ}
    (h : readerNext openF process st = Option.none) :
    stateBatches openF process st = [] := by
  match hcur : st.cur with
  | some (sch, rgs) =>
    simp only [stateBatches, hcur]
    match hnl : nextRgLoop (process sch) rgs with
    | .ok (some (b, rgs2)) => simp only [readerNext, hcur, hnl] at h; cases h
    | .ok Option.none =>
      have hempty : fileBatches (process sch) rgs = [] :=
        nextRgLoop_not_some (by intro b2 r2 hc; rw [hnl] at hc; cases hc)
      match hol : openLoop openF process st.pending with
      | Option.none => rw [hempty, List.nil_append]; exact openLoop_none hol
      | some (b2, cf, pend) => simp only [readerNext, hcur, hnl, hol] at h; cases h
    | .error msg =>
      have hempty : fileBatches (process sch) rgs = [] :=
        nextRgLoop_not_some (by intro b2 r2 hc; rw [hnl] at hc; cases hc)
      match hol : openLoop openF process st.pending with
      | Option.none => rw [hempty, List.nil_append]; exact openLoop_none hol
      | some (b2, cf, pend) => simp only [readerNext, hcur, hnl, hol] at h; cases h
  | Option.none =>
    simp only [stateBatches, hcur, List.nil_append]
    match hol : openLoop openF process st.pending with
    | Option.none => exact openLoop_none hol
    | some (b2, cf, pend) => simp only [readerNext, hcur, hol] at h; cases h

/-- A successful `next` peels exactly the head of the remaining batch
sequence, shrinks the fuel measure, and its batch comes from a reachable
row group whose decode succeeded. -/
theorem readerNext_some {st st2 : ReaderState σ ρ} {b : β}
    (h : readerNext openF process st = some (b, st2)) :
    stateBatches openF process st = b :: stateBatches openF process st2 ∧
    stMeasure openF st2 < stMeasure openF st ∧
    ∃ sch rg, containsRG openF st sch rg ∧ process sch rg = .ok (some b) := by
  match hcur : st.cur with
  | some (sch, rgs) =>
    match hnl : nextRgLoop (process sch) rgs with
    | .ok (some (b2, rgs2)) =>
      have hr : readerNext openF process st = some (b2, ⟨some (sch, rgs2), st.pending⟩) := by
        simp only [readerNext, hcur, hnl]
      rw [hr] at h
      cases h
      obtain ⟨⟨rg, hm, hp⟩, hlen, hfb⟩ := nextRgLoop_some hnl
      refine ⟨?_, ?_, sch, rg, Or.inl ⟨rgs, hcur, hm⟩, hp⟩
      · simp only [stateBatches, hcur, hfb]
        simp
      · simp only [stMeasure, hcur]
        omega
    | .ok Option.none =>
      have hempty : fileBatches (process sch) rgs = [] :=
        nextRgLoop_not_some (by intro b2 r2 hc; rw [hnl] at hc; cases hc)
      match hol : openLoop openF process st.pending with
      | Option.none =>
        have hr : readerNext openF process st = Option.none := by
          simp only [readerNext, hcur, hnl, hol]
        rw [hr] at h
        cases h
      | some (b2, (sch2, rgs2), pend) =>
        have hr : readerNext openF process st = some (b2, ⟨some (sch2, rgs2), pend⟩) := by
          simp only [readerNext, hcur, hnl, hol]
        rw [hr] at h
        cases h
        obtain ⟨⟨c, hm, rgs0, hop, hnl2⟩, hfb, hw⟩ := openLoop_some hol
        obtain ⟨⟨rg, hmrg, hp⟩, -, -⟩ := nextRgLoop_some hnl2
        refine ⟨?_, ?_, sch2, rg, Or.inr ⟨c, hm, rgs0, hop, hmrg⟩, hp⟩
        · simp [stateBatches, hcur, hempty, hfb]
        · simp only [stMeasure, hcur]
          omega
    | .error msg =>
      have hempty : fileBatches (process sch) rgs = [] :=
        nextRgLoop_not_some (by intro b2 r2 hc; rw [hnl] at hc; cases hc)
      match hol : openLoop openF process st.pending with
      | Option.none =>
        have hr : readerNext openF process st = Option.none := by
          simp only [readerNext, hcur, hnl, hol]
        rw [hr] at h
        cases h
      | some (b2, (sch2, rgs2), pend) =>
        have hr : readerNext openF process st = some (b2, ⟨some (sch2, rgs2), pend⟩) := by
          simp only [readerNext, hcur, hnl, hol]
        rw [hr] at h
        cases h
        obtain ⟨⟨c, hm, rgs0, hop, hnl2⟩, hfb, hw⟩ := openLoop_some hol
        obtain ⟨⟨rg, hmrg, hp⟩, -, -⟩ := nextRgLoop_some hnl2
        refine ⟨?_, ?_, sch2, rg, Or.inr ⟨c, hm, rgs0, hop, hmrg⟩, hp⟩
        · simp [stateBatches, hcur, hempty, hfb]
        · simp only [stMeasure, hcur]
          omega
  | Option.none =>
    match hol : openLoop openF process st.pending with
    | Option.none =>
      have hr : readerNext openF process st = Option.none := by
        simp only [readerNext, hcur, hol]
      rw [hr] at h
      cases h
    | some (b2, (sch2, rgs2), pend) =>
      have hr : readerNext openF process st = some (b2, ⟨some (sch2, rgs2), pend⟩) := by
        simp only [readerNext, hcur, hol]
      rw [hr] at h
      cases h
      obtain ⟨⟨c, hm, rgs0, hop, hnl2⟩, hfb, hw⟩ := openLoop_some hol
      obtain ⟨⟨rg, hmrg, hp⟩, -, -⟩ := nextRgLoop_some hnl2
      refine ⟨?_, ?_, sch2, rg, Or.inr ⟨c, hm, rgs0, hop, hmrg⟩, hp⟩
      · simp [stateBatches, hcur, hfb]
      · simp only [stMeasure, hcur]
        omega

theorem drainFuel_spec : ∀ (fuel : Nat) (st : ReaderState σ ρ),
    stMeasure openF st < fuel →
    drainFuel openF process fuel st = stateBatches openF process st := by
  intro fuel
  induction fuel with
  | zero => intro st h; omega
  | succ f ih =>
    intro st hlt
    match hn : readerNext openF process st with
    | Option.none =>
      simp only [drainFuel, hn]
      exact (readerNext_none hn).symm
    | some (b, st2) =>
      obtain ⟨hfb, hm, -⟩ := readerNext_some hn
      simp only [drainFuel, hn]
      rw [ih st2 (by omega), hfb]

/-- The reader's full observation sequence is exactly the batch sequence
of its state: the open file's decodable remainder followed by each
pending candidate's decodable prefix. -/
theorem readerDrain_eq (st : ReaderState σ ρ) :
    readerDrain openF process st = stateBatches openF process st :=
  drainFuel_spec _ st (Nat.lt_succ_self _)

end ReaderLemmas

/-! ## Lemmas: per-kind batch shape -/

theorem inWin_iff (s e t : Int) : inWin s e t = true ↔ s ≤ t ∧ t < e := by
  simp [inWin]

/-- A successful depth batch: its `v_ts` is the in-window filter of the
row timestamps, and it is non-empty. -/
theorem deltaProc_some {sel : DeltaSelect} {s e : Int} {sch : DepthSchema} {rg : DepthRG}
    {b : DeltaBuffers} (h : deltaProc sel s e sch rg = .ok (some b)) :
    processDeltaRG sel s e sch rg = .ok b ∧
    (∃ tsE, decodeCol rg.ts = .ok tsE ∧
      b.v_ts = (rowTsList rg.rows tsE).filter (inWin s e)) ∧
    b.v_ts ≠ [] := by
  unfold deltaProc at h
  match hp : processDeltaRG sel s e sch rg with
  | .error msg => rw [hp] at h; cases h
  | .ok b0 =>
    rw [hp] at h
    simp only [Except.map] at h
    by_cases hemp : b0.v_ts.isEmpty
    · rw [if_pos hemp] at h; cases h
    · rw [if_neg hemp] at h
      cases h
      obtain ⟨tsE, fidE, lidE, evtE, apxE, aqtyE, bpxE, bqtyE,
        h1, -, -, -, -, -, -, -, hb⟩ := processDeltaRG_ok hp
      refine ⟨rfl, ⟨tsE, h1, ?_⟩, by simpa using hemp⟩
      rw [hb, deltaRowLoop_v_ts]
      simp [initDeltaBuffers]

/-- A successful top batch: its `v_ts` is the in-window filter of the
full timestamp column, and it is non-empty. -/
theorem processTopRG_some {sel : TopSelect} {s e : Int} {sch : TopSchema} {rg : TopRG}
    {b : TopBuffers} (h : processTopRG sel s e sch rg = .ok (some b)) :
    ∃ ts_all, read_required_i64_column rg.rows rg.ts = .ok ts_all ∧
      b.v_ts = ts_all.filter (inWin s e) ∧ b.v_ts ≠ [] := by
  unfold processTopRG at h
  by_cases hts : sch.ts = false
  · rw [if_pos hts] at h; cases h
  rw [if_neg hts] at h
  rw [except_bind_ok] at h
  obtain ⟨ts_all, h1, h⟩ := h
  by_cases hcnt : (ts_all.filter (inWin s e)).length = 0
  · rw [if_pos hcnt] at h; cases h
  · rw [if_neg hcnt] at h
    rw [except_bind_ok] at h; obtain ⟨_, -, h⟩ := h
    rw [except_bind_ok] at h; obtain ⟨_, -, h⟩ := h
    rw [except_bind_ok] at h; obtain ⟨_, -, h⟩ := h
    rw [except_bind_ok] at h; obtain ⟨_, -, h⟩ := h
    rw [except_bind_ok] at h; obtain ⟨_, -, h⟩ := h
    rw [except_bind_ok] at h; obtain ⟨_, -, h⟩ := h
    rw [except_bind_ok] at h; obtain ⟨_, -, h⟩ := h
    rw [except_bind_ok] at h; obtain ⟨_, -, h⟩ := h
    rw [except_bind_ok] at h; obtain ⟨_, -, h⟩ := h
    rw [except_bind_ok] at h; obtain ⟨_, -, h⟩ := h
    rw [except_bind_ok] at h; obtain ⟨_, -, h⟩ := h
    rw [except_bind_ok] at h; obtain ⟨_, -, h⟩ := h
    rw [except_bind_ok] at h; obtain ⟨_, -, h⟩ := h
    cases h
    exact ⟨ts_all, h1, rfl, by
      intro hnil
      exact hcnt (by
        rw [show List.filter (inWin s e) ts_all = [] from hnil]
        rfl)⟩

/-- A successful trade batch: its `v_ts` is the in-window filter of the
full timestamp column, and it is non-empty. -/
theorem processTradeRG_some {sel : TradeSelect} {s e : Int} {sch : TradeSchema} {rg : TradeRG}
    {b : TradeBuffers} (h : processTradeRG sel s e sch rg = .ok (some b)) :
    ∃ ts_all, read_required_i64_column rg.rows rg.ts = .ok ts_all ∧
      b.v_ts = ts_all.filter (inWin s e) ∧ b.v_ts ≠ [] := by
  unfold processTradeRG at h
  by_cases hts : sch.ts = false
  · rw [if_pos hts] at h; cases h
  rw [if_neg hts] at h
  rw [except_bind_ok] at h
  obtain ⟨ts_all, h1, h⟩ := h
  by_cases hcnt : (ts_all.filter (inWin s e)).length = 0
  · rw [if_pos hcnt] at h; cases h
  · rw [if_neg hcnt] at h
    rw [except_bind_ok] at h; obtain ⟨_, -, h⟩ := h
    rw [except_bind_ok] at h; obtain ⟨_, -, h⟩ := h
    rw [except_bind_ok] at h; obtain ⟨_, -, h⟩ := h
    rw [except_bind_ok] at h; obtain ⟨_, -, h⟩ := h
    rw [except_bind_ok] at h; obtain ⟨_, -, h⟩ := h
    rw [except_bind_ok] at h; obtain ⟨_, -, h⟩ := h
    rw [except_bind_ok] at h; obtain ⟨_, -, h⟩ := h
    rw [except_bind_ok] at h; obtain ⟨_, -, h⟩ := h
    cases h
    exact ⟨ts_all, h1, rfl, by
      intro hnil
      exact hcnt (by
        rw [show List.filter (inWin s e) ts_all = [] from hnil]
        rfl)⟩

/-! ## Claim C2: exact half-open time-window selection -/

/-- C2 (confirmed).  For every window `[s, e)` and every modelled data
kind (top, trade, depth), every row delivered by the Batch Reader's
`next` has its timestamp `t` satisfying `s ≤ t < e`; in particular a row
with timestamp exactly `e` is never delivered. -/
theorem spec_c2 :
    (∀ (openF : String → Option (DepthSchema × List DepthRG)) (sel : DeltaSelect)
      (s e : Int) (st st2 : ReaderState DepthSchema DepthRG) (b : DeltaBuffers),
      readerNext openF (deltaProc sel s e) st = some (b, st2) →
      ∀ t ∈ b.v_ts, s ≤ t ∧ t < e) ∧
    (∀ (openF : String → Option (TopSchema × List TopRG)) (sel : TopSelect)
      (s e : Int) (st st2 : ReaderState TopSchema TopRG) (b : TopBuffers),
      readerNext openF (processTopRG sel s e) st = some (b, st2) →
      ∀ t ∈ b.v_ts, s ≤ t ∧ t < e) ∧
    (∀ (openF : String → Option (TradeSchema × List TradeRG)) (sel : TradeSelect)
      (s e : Int) (st st2 : ReaderState TradeSchema TradeRG) (b : TradeBuffers),
      readerNext openF (processTradeRG sel s e) st = some (b, st2) →
      ∀ t ∈ b.v_ts, s ≤ t ∧ t < e) := by
  refine ⟨?_, ?_, ?_⟩
  · intro openF sel s e st st2 b h t ht
    obtain ⟨-, -, sch, rg, -, hp⟩ := readerNext_some h
    obtain ⟨-, ⟨tsE, -, hts⟩, -⟩ := deltaProc_some hp
    rw [hts] at ht
    exact (inWin_iff s e t).mp (List.of_mem_filter ht)
  · intro openF sel s e st st2 b h t ht
    obtain ⟨-, -, sch, rg, -, hp⟩ := readerNext_some h
    obtain ⟨ts_all, -, hts, -⟩ := processTopRG_some hp
    rw [hts] at ht
    exact (inWin_iff s e t).mp (List.of_mem_filter ht)
  · intro openF sel s e st st2 b h t ht
    obtain ⟨-, -, sch, rg, -, hp⟩ := readerNext_some h
    obtain ⟨ts_all, -, hts, -⟩ := processTradeRG_some hp
    rw [hts] at ht
    exact (inWin_iff s e t).mp (List.of_mem_filter ht)

/-- Witness for C2: the first row of the end-to-end example batch lies
inside the requested day window. -/
theorem spec_c2_witness :
    (86400000000000 : Int) ≤ 86400000000010 ∧ (86400000000010 : Int) < 172800000000000 :=
  spec_c2.1 exOpenF {} 86400000000000 172800000000000
    ⟨Option.none, [⟨exPath, 86400000000000, 172800000000000⟩]⟩
    ⟨some (fullDepthSchema, []), []⟩ exBatch (by decide) 86400000000010 (by decide)

/-! ## Claim C3: skip-and-continue over failing files -/

/-- C3 (corrected: the amended claim).  `next` is a total function (it
never propagates an open or decode failure); draining any Batch Reader
yields, in order, for each candidate file: nothing when the file fails
to open, and otherwise the batches of the file's decodable prefix of row
groups — the remainder of a file is abandoned at its first failing row
group and the scan continues with the next candidate. -/
theorem spec_c3 (σ ρ β : Type) (openF : String → Option (σ × List ρ))
    (process : σ → ρ → Except String (Option β)) (cands : List Candidate) :
    readerDrain openF process ⟨Option.none, cands⟩ =
      cands.flatMap (candBatches openF process) := by
  rw [readerDrain_eq]
  simp [stateBatches]

/-- Counterexample for C3 as stated: a single candidate file whose first
row group decodes and whose second row group raises the value-buffer
underflow.  The caller observes the batch of the first row group — a row
from the failing file itself — whereas the claim as stated says the
caller observes only the rows of the remaining valid files (here: none). -/
theorem spec_c3_counterexample :
    readerDrain c3OpenF (deltaProc {} 0 10) ⟨Option.none, [cand "f1"]⟩ = [okBatch] ∧
    okBatch.v_ts = [5] := by decide

/-! ## Claim C4: missing required columns -/

/-- Any missing required (selected) column makes the depth row-group
body throw at once, before any row is decoded. -/
theorem processDeltaRG_missing {sel : DeltaSelect} {sch : DepthSchema}
    (h : missingRequiredDelta sel sch = true) (s e : Int) (rg : DepthRG) :
    ∃ msg, processDeltaRG sel s e sch rg = .error msg := by
  unfold processDeltaRG
  by_cases h1 : sch.hasTs = false
  · exact ⟨_, by rw [if_pos h1]⟩
  rw [if_neg h1]
  by_cases h2 : sel.firstId = true ∧ sch.hasFid = false
  · exact ⟨_, by rw [if_pos h2]⟩
  rw [if_neg h2]
  by_cases h3 : sel.lastId = true ∧ sch.hasLid = false
  · exact ⟨_, by rw [if_pos h3]⟩
  rw [if_neg h3]
  by_cases h4 : sel.eventTime = true ∧ sch.hasEvt = false
  · exact ⟨_, by rw [if_pos h4]⟩
  rw [if_neg h4]
  by_cases h5 : sel.ask_px = true ∧ sch.hasAskPx = false
  · exact ⟨_, by rw [if_pos h5]⟩
  rw [if_neg h5]
  by_cases h6 : sel.ask_qty = true ∧ sch.hasAskQty = false
  · exact ⟨_, by rw [if_pos h6]⟩
  rw [if_neg h6]
  by_cases h7 : sel.bid_px = true ∧ sch.hasBidPx = false
  · exact ⟨_, by rw [if_pos h7]⟩
  rw [if_neg h7]
  by_cases h8 : sel.bid_qty = true ∧ sch.hasBidQty = false
  · exact ⟨_, by rw [if_pos h8]⟩
  exfalso
  simp only [missingRequiredDelta, Bool.or_eq_true, Bool.and_eq_true,
    Bool.not_eq_true', not_and] at h
  tauto

/-- C4 (corrected: the amended claim).  A candidate file that opens but
lacks a required column makes the streamer throw a runtime error
immediately (for depth, before any row of the row group is decoded; for
top, the timestamp-column check throws up front), but the Batch Reader's
`next` catches that error like any other per-file failure: the file is
skipped and the scan continues with the next candidate — nothing is
raised to the caller of `next`.  (The only configuration error raised to
the caller is the invalid-market token, thrown at reader construction:
see C10.) -/
theorem spec_c4 :
    (∀ (sel : DeltaSelect) (sch : DepthSchema), missingRequiredDelta sel sch = true →
      ∀ (s e : Int) (rg : DepthRG), ∃ msg, processDeltaRG sel s e sch rg = .error msg) ∧
    (∀ (sel : DeltaSelect) (sch : DepthSchema) (s e : Int)
      (openF : String → Option (DepthSchema × List DepthRG)) (c : Candidate)
      (pend : List Candidate) (rgs : List DepthRG),
      missingRequiredDelta sel sch = true →
      openF c.path = some (sch, rgs) →
      readerNext openF (deltaProc sel s e) ⟨Option.none, c :: pend⟩ =
        readerNext openF (deltaProc sel s e) ⟨Option.none, pend⟩) ∧
    (∀ (sel : TopSelect) (sch : TopSchema), sch.ts = false →
      ∀ (s e : Int) (rg : TopRG), processTopRG sel s e sch rg = .error "top: missing ts") ∧
    (∀ (sel : TopSelect) (sch : TopSchema) (s e : Int)
      (openF : String → Option (TopSchema × List TopRG)) (c : Candidate)
      (pend : List Candidate) (rgs : List TopRG),
      sch.ts = false →
      openF c.path = some (sch, rgs) →
      readerNext openF (processTopRG sel s e) ⟨Option.none, c :: pend⟩ =
        readerNext openF (processTopRG sel s e) ⟨Option.none, pend⟩) := by
  refine ⟨fun sel sch h s e rg => processDeltaRG_missing h s e rg, ?_, ?_, ?_⟩
  · intro sel sch s e openF c pend rgs hmiss hc
    have hol : openLoop openF (deltaProc sel s e) (c :: pend)
        = openLoop openF (deltaProc sel s e) pend := by
      cases rgs with
      | nil => simp [openLoop, hc, nextRgLoop]
      | cons rg rest =>
        obtain ⟨msg, hmsg⟩ := processDeltaRG_missing hmiss s e rg
        have hd : deltaProc sel s e sch rg = .error msg := by
          simp [deltaProc, hmsg, Except.map]
        simp [openLoop, hc, nextRgLoop, hd]
    simp [readerNext, hol]
  · intro sel sch hts s e rg
    unfold processTopRG
    rw [if_pos hts]
  · intro sel sch s e openF c pend rgs hts hc
    have hol : openLoop openF (processTopRG sel s e) (c :: pend)
        = openLoop openF (processTopRG sel s e) pend := by
      cases rgs with
      | nil => simp [openLoop, hc, nextRgLoop]
      | cons rg rest =>
        have hd : processTopRG sel s e sch rg = .error "top: missing ts" := by
          unfold processTopRG; rw [if_pos hts]
        simp [openLoop, hc, nextRgLoop, hd]
    simp [readerNext, hol]

/-- Counterexample for C4 as stated: two candidates, the first opening
to a file whose schema lacks the `ts` column.  `next` does not raise the
configuration error to the caller — it returns the batch of the second,
valid file. -/
theorem spec_c4_counterexample :
    readerNext c4OpenF (deltaProc {} 0 10) ⟨Option.none, [cand "f1", cand "f2"]⟩
      = some (okBatch, ⟨some (fullDepthSchema, []), []⟩) := by decide

/-- Witness for C4: the skip equation applied to the concrete
missing-`ts` file of the counterexample. -/
theorem spec_c4_witness :
    readerNext c4OpenF (deltaProc {} 0 10) ⟨Option.none, [cand "f1"]⟩
      = readerNext c4OpenF (deltaProc {} 0 10) ⟨Option.none, []⟩ :=
  spec_c4.2.1 {} ⟨false, true, true, true, true, true, true, true⟩ 0 10 c4OpenF
    (cand "f1") [] [okRG] (by decide) (by decide)

/-! ## Claim C9: populated batches only, empty results are not errors -/

/-- C9 (confirmed).  `next` returns a batch only when it holds at least
one in-window row (for all three data kinds); a row group with zero
in-window rows is skipped transparently inside the row-group loop; and
an empty candidate list yields `false` from `next` without error. -/
theorem spec_c9 :
    (∀ (openF : String → Option (DepthSchema × List DepthRG)) (sel : DeltaSelect)
      (s e : Int) (st st2 : ReaderState DepthSchema DepthRG) (b : DeltaBuffers),
      readerNext openF (deltaProc sel s e) st = some (b, st2) → b.v_ts ≠ []) ∧
    (∀ (openF : String → Option (TopSchema × List TopRG)) (sel : TopSelect)
      (s e : Int) (st st2 : ReaderState TopSchema TopRG) (b : TopBuffers),
      readerNext openF (processTopRG sel s e) st = some (b, st2) → b.v_ts ≠ []) ∧
    (∀ (openF : String → Option (TradeSchema × List TradeRG)) (sel : TradeSelect)
      (s e : Int) (st st2 : ReaderState TradeSchema TradeRG) (b : TradeBuffers),
      readerNext openF (processTradeRG sel s e) st = some (b, st2) → b.v_ts ≠ []) ∧
    (∀ (σ ρ β : Type) (openF : String → Option (σ × List ρ))
      (process : σ → ρ → Except String (Option β)),
      readerNext openF process ⟨Option.none, []⟩ = Option.none) ∧
    (∀ (ρ β : Type) (process : ρ → Except String (Option β)) (rg : ρ) (rest : List ρ),
      process rg = .ok Option.none →
      nextRgLoop process (rg :: rest) = nextRgLoop process rest) ∧
    (∀ (sel : DeltaSelect) (s e : Int) (sch : DepthSchema) (rg : DepthRG)
      (tsE : List Entry) (buf : DeltaBuffers),
      decodeCol rg.ts = .ok tsE →
      (∀ t ∈ rowTsList rg.rows tsE, inWin s e t = false) →
      processDeltaRG sel s e sch rg = .ok buf →
      deltaProc sel s e sch rg = .ok Option.none) ∧
    (∀ (sel : TopSelect) (s e : Int) (sch : TopSchema) (rg : TopRG) (ts_all : List Int),
      sch.ts = true →
      read_required_i64_column rg.rows rg.ts = .ok ts_all →
      (∀ t ∈ ts_all, inWin s e t = false) →
      processTopRG sel s e sch rg = .ok Option.none) := by
  refine ⟨?_, ?_, ?_, ?_, ?_, ?_, ?_⟩
  · intro openF sel s e st st2 b h
    obtain ⟨-, -, sch, rg, -, hp⟩ := readerNext_some h
    exact (deltaProc_some hp).2.2
  · intro openF sel s e st st2 b h
    obtain ⟨-, -, sch, rg, -, hp⟩ := readerNext_some h
    obtain ⟨-, -, -, hne⟩ := processTopRG_some hp
    exact hne
  · intro openF sel s e st st2 b h
    obtain ⟨-, -, sch, rg, -, hp⟩ := readerNext_some h
    obtain ⟨-, -, -, hne⟩ := processTradeRG_some hp
    exact hne
  · intro σ ρ β openF process
    rfl
  · intro ρ β process rg rest hp
    simp [nextRgLoop, hp]
  · intro sel s e sch rg tsE buf hts hwin hok
    obtain ⟨tsE2, - , -, -, -, -, -, -, hb⟩ := processDeltaRG_ok hok
    obtain ⟨tsE3, fidE, lidE, evtE, apxE, aqtyE, bpxE, bqtyE, h1, -, -, -, -, -, -, -, hb2⟩ :=
      processDeltaRG_ok hok
    have htsE : tsE3 = tsE := by
      rw [hts] at h1; cases h1; rfl
    have hvts : buf.v_ts = [] := by
      rw [hb2, deltaRowLoop_v_ts]
      simp only [initDeltaBuffers, List.nil_append]
      rw [htsE]
      exact List.filter_eq_nil.mpr (fun t ht => by simp [hwin t ht])
    unfold deltaProc
    rw [hok]
    simp [Except.map, hvts]
  · intro sel s e sch rg ts_all hts hread hwin
    unfold processTopRG
    rw [if_neg (by simp [hts])]
    rw [show ∀ f, (read_required_i64_column rg.rows rg.ts).bind f = f ts_all from
      fun f => by rw [hread]; rfl]
    rw [if_pos (by
      rw [List.filter_eq_nil.mpr (fun t ht => by simp [hwin t ht])]
      rfl)]

/-- Witness for C9: the end-to-end example batch is non-empty, via the
depth clause applied to a concrete successful `next`. -/
theorem spec_c9_witness : exBatch.v_ts ≠ [] :=
  spec_c9.1 exOpenF {} 86400000000000 172800000000000
    ⟨Option.none, [⟨exPath, 86400000000000, 172800000000000⟩]⟩
    ⟨some (fullDepthSchema, []), []⟩ exBatch (by decide)

/-! ## Claim C8: out-of-window rows are consumed but never copied -/

/-- C8 (confirmed).  For a row whose timestamp lies outside `[s, e)`,
the row-loop step leaves every output buffer exactly as it was; and the
cursor advancement — the scalar takes and the list-side consumption
through the assemblers — is the same function of the state regardless of
the window, so out-of-window rows are still fully consumed to keep the
cursors positioned at the next row. -/
theorem spec_c8 (sel : DeltaSelect) (s e : Int) (st : DeltaState)
    (hout : inWin s e (takeE st.ts).1.value = false) :
    (deltaRowStep sel s e st).buf = st.buf ∧
    (deltaRowStep sel s e st).apx = (askRowConsume sel st.apx st.aqty).pxRest ∧
    (deltaRowStep sel s e st).aqty = (askRowConsume sel st.apx st.aqty).qtyRest ∧
    (deltaRowStep sel s e st).bpx = (bidRowConsume sel st.bpx st.bqty).pxRest ∧
    (deltaRowStep sel s e st).bqty = (bidRowConsume sel st.bpx st.bqty).qtyRest ∧
    (deltaRowStep sel s e st).ts = (takeE st.ts).2 ∧
    (∀ s2 e2 : Int,
      (deltaRowStep sel s2 e2 st).ts = (deltaRowStep sel s e st).ts ∧
      (deltaRowStep sel s2 e2 st).fid = (deltaRowStep sel s e st).fid ∧
      (deltaRowStep sel s2 e2 st).lid = (deltaRowStep sel s e st).lid ∧
      (deltaRowStep sel s2 e2 st).evt = (deltaRowStep sel s e st).evt ∧
      (deltaRowStep sel s2 e2 st).apx = (deltaRowStep sel s e st).apx ∧
      (deltaRowStep sel s2 e2 st).aqty = (deltaRowStep sel s e st).aqty ∧
      (deltaRowStep sel s2 e2 st).bpx = (deltaRowStep sel s e st).bpx ∧
      (deltaRowStep sel s2 e2 st).bqty = (deltaRowStep sel s e st).bqty) := by
  refine ⟨?_, rfl, rfl, rfl, rfl, rfl, fun s2 e2 => ⟨rfl, rfl, rfl, rfl, rfl, rfl, rfl, rfl⟩⟩
  simp [deltaRowStep, hout]

/-- Witness for C8: a concrete one-row state with timestamp 99 outside
the window `[0, 10)` leaves the buffers untouched. -/
theorem spec_c8_witness :
    (deltaRowStep {} 0 10
      ⟨[⟨0, 0, true, 99, true⟩], [], [], [], [], [], [], [], initDeltaBuffers {}⟩).buf
      = initDeltaBuffers {} :=
  (spec_c8 {} 0 10
    ⟨[⟨0, 0, true, 99, true⟩], [], [], [], [], [], [], [], initDeltaBuffers {}⟩ (by decide)).1

/-! ## Claim C10: market-token normalization and validation -/

/-- Closed form of `norm_market` on a present token: the lowercased
token decides everything. -/
theorem norm_market_eq (m : String) :
    norm_market (some m) =
      (if str_tolower m = "futures" ∨ str_tolower m = "future" ∨ str_tolower m = "fut"
        then some "fut"
        else if str_tolower m = "spot" then some "spot" else Option.none) := by
  unfold norm_market
  by_cases h1 : str_tolower m = "futures"
  · simp [h1]
  by_cases h2 : str_tolower m = "future"
  · simp [h1, h2]
  by_cases h3 : str_tolower m = "fut"
  · simp [h1, h2, h3]
  by_cases h4 : str_tolower m = "spot"
  · simp [h1, h2, h3, h4]
  · simp [h1, h2, h3, h4]

/-- C10 (corrected: the amended claim).  An explicit market token is
matched against its lowercased spelling: `futures` and `future` (in any
case) normalize to `fut`, `spot` and `fut` are accepted as themselves,
and — provided the requested window is non-empty — any other token makes
`get_top_cols` / `get_trade_cols` / `get_depth_cols` throw
`market must be 'fut' or 'spot'` before any file is opened (the result
does not depend on the file-existence predicate); omitting the market
searches both markets, `fut` then `spot`.  With an empty or inverted
window (start ≥ end) the enumeration returns an empty reader before the
market token is ever validated, and no error is raised. -/
theorem spec_c10 :
    (∀ m : String,
      (norm_market (some m) = some "fut" ↔
        str_tolower m = "fut" ∨ str_tolower m = "futures" ∨ str_tolower m = "future") ∧
      (norm_market (some m) = some "spot" ↔ str_tolower m = "spot") ∧
      (norm_market (some m) = Option.none ↔
        ¬(str_tolower m = "spot" ∨ str_tolower m = "fut" ∨
          str_tolower m = "futures" ∨ str_tolower m = "future"))) ∧
    (∀ (root symb m smp : String) (sampling : Option String) (ex : String → Bool) (s e : Int),
      s < e → norm_market (some m) = Option.none →
      get_top_cols root sampling s e symb (some m) ex
          = .error "market must be 'fut' or 'spot'" ∧
      get_trade_cols root s e symb (some m) ex = .error "market must be 'fut' or 'spot'" ∧
      get_depth_cols root s e symb (some m) ex = .error "market must be 'fut' or 'spot'" ∧
      candidate_files_strict root symb smp (some m) s e sampling ex
          = .error "market must be 'fut' or 'spot'") ∧
    (∀ (root symb kind : String) (sampling : Option String) (ex : String → Bool) (s e : Int),
      s < e →
      candidate_files_strict root symb kind Option.none s e sampling ex
        = .ok (candidatesOneMarket root symb kind "fut" s e ex ++
               candidatesOneMarket root symb kind "spot" s e ex)) := by
  refine ⟨?_, ?_, ?_⟩
  · intro m
    rw [norm_market_eq]
    by_cases h1 : str_tolower m = "futures"
    · simp [h1]
    by_cases h2 : str_tolower m = "future"
    · simp [h1, h2]
    by_cases h3 : str_tolower m = "fut"
    · simp [h1, h2, h3]
    by_cases h4 : str_tolower m = "spot"
    · simp [h1, h2, h3, h4]
    · simp [h1, h2, h3, h4]
  · intro root symb m smp sampling ex s e hlt hnone
    have hcf : ∀ (kind : String) (smp2 : Option String),
        candidate_files_strict root symb kind (some m) s e smp2 ex
          = .error "market must be 'fut' or 'spot'" := by
      intro kind smp2
      unfold candidate_files_strict
      rw [if_neg (by omega)]
      simp only [hnone]
    exact ⟨by unfold get_top_cols; rw [hcf "top" sampling]; rfl,
      by unfold get_trade_cols; rw [hcf "trade" Option.none]; rfl,
      by unfold get_depth_cols; rw [hcf "depth" Option.none]; rfl,
      hcf smp sampling⟩
  · intro root symb kind sampling ex s e hlt
    unfold candidate_files_strict
    rw [if_neg (by omega)]

/-- Counterexample for C10 as stated: with an inverted window the
invalid token `xyz` raises nothing — construction succeeds with an
empty candidate list. -/
theorem spec_c10_counterexample :
    get_depth_cols "/data" 1 0 "S" (some "xyz") (fun _ => true)
      = .ok ⟨Option.none, []⟩ := by decide

/-- Witness for C10: the invalid token `xyz` with a non-empty window
raises the market error from `get_depth_cols`. -/
theorem spec_c10_witness :
    get_depth_cols "/data" 0 1 "S" (some "xyz") (fun _ => true)
      = .error "market must be 'fut' or 'spot'" :=
  (spec_c10.2.1 "/data" "S" "xyz" "depth" Option.none (fun _ => true) 0 1
    (by omega) (by decide)).2.2.1

/-! ## Lemmas: day enumeration of file discovery -/

theorem dayNs_pos : (0 : Int) < dayNs := by norm_num [dayNs]

/-- For a nanosecond instant at or after the epoch, `floor_day_ns` is
the greatest multiple of one day not exceeding it. -/
theorem floor_day_props (x : Int) (hx : 0 ≤ x) :
    dayNs ∣ floor_day_ns x ∧ floor_day_ns x ≤ x ∧ x < floor_day_ns x + dayNs := by
  simp only [floor_day_ns, dayNs]
  rw [Int.tdiv_eq_ediv hx (by norm_num)]
  rw [Int.tmod_eq_emod (Int.ediv_nonneg hx (by norm_num)) (by norm_num)]
  omega

theorem dayLoop_mem_ge : ∀ (fuel : Nat) (cur endF D : Int),
    D ∈ dayLoop fuel cur endF → cur ≤ D
  | 0, _, _, _, h => by simp [dayLoop] at h
  | fuel + 1, cur, endF, D, h => by
    rw [dayLoop] at h
    by_cases hle : cur ≤ endF
    · rw [if_pos hle] at h
      rcases List.mem_cons.mp h with rfl | h2
      · exact le_refl D
      · have := dayLoop_mem_ge fuel (cur + dayNs) endF D h2
        have := dayNs_pos
        omega
    · rw [if_neg hle] at h
      simp at h

theorem dayLoop_nodup : ∀ (fuel : Nat) (cur endF : Int), (dayLoop fuel cur endF).Nodup
  | 0, _, _ => List.nodup_nil
  | fuel + 1, cur, endF => by
    rw [dayLoop]
    by_cases hle : cur ≤ endF
    · rw [if_pos hle]
      refine List.Nodup.cons ?_ (dayLoop_nodup fuel (cur + dayNs) endF)
      intro hmem
      have := dayLoop_mem_ge fuel (cur + dayNs) endF cur hmem
      have := dayNs_pos
      omega
    · rw [if_neg hle]
      exact List.nodup_nil

theorem dayLoop_mem : ∀ (fuel : Nat) (cur endF D : Int), endF - cur < fuel * dayNs →
    (D ∈ dayLoop fuel cur endF ↔ ∃ k : Nat, D = cur + k * dayNs ∧ D ≤ endF)
  | 0, cur, endF, D, hfuel => by
    rw [dayLoop]
    simp only [List.not_mem_nil, false_iff, not_exists, not_and]
    intro k hD
    have hk : (0 : Int) ≤ (k : Int) * dayNs :=
      mul_nonneg (Int.natCast_nonneg k) (le_of_lt dayNs_pos)
    simp at hfuel
    omega
  | fuel + 1, cur, endF, D, hfuel => by
    rw [dayLoop]
    by_cases hle : cur ≤ endF
    · rw [if_pos hle]
      have hrec := dayLoop_mem fuel (cur + dayNs) endF D
        (by push_cast at hfuel ⊢; nlinarith [dayNs_pos])
      rw [List.mem_cons, hrec]
      constructor
      · rintro (rfl | ⟨k, rfl, hk⟩)
        · exact ⟨0, by simp, hle⟩
        · exact ⟨k + 1, by push_cast; ring, hk⟩
      · rintro ⟨k, rfl, hk⟩
        cases k with
        | zero => exact Or.inl (by simp)
        | succ j => exact Or.inr ⟨j, by push_cast; ring, hk⟩
    · rw [if_neg hle]
      simp only [List.not_mem_nil, false_iff, not_exists, not_and]
      intro k hD
      have hk : (0 : Int) ≤ (k : Int) * dayNs :=
      mul_nonneg (Int.natCast_nonneg k) (le_of_lt dayNs_pos)
      omega

/-- The top-level fuel of the discovery loop always dominates the
remaining distance. -/
theorem dayLoopFuel_enough (cur endF : Int) :
    endF - cur < (dayLoopFuel cur endF : Int) * dayNs := by
  unfold dayLoopFuel dayNs
  by_cases h : endF - cur < 0
  · have : (0 : Int) ≤ ((endF - cur).toNat / 86400000000000 + 1 : Nat) * 86400000000000 := by
      positivity
    omega
  · push_neg at h
    have htn : ((endF - cur).toNat : Int) = endF - cur := Int.toNat_of_nonneg h
    set n : Nat := (endF - cur).toNat with hn
    have hlt : n < (n / 86400000000000 + 1) * 86400000000000 := by
      have := Nat.div_add_mod n 86400000000000
      have : n % 86400000000000 < 86400000000000 := Nat.mod_lt _ (by norm_num)
      omega
    have := (Int.ofNat_lt).mpr hlt
    push_cast at this
    omega

/-- Membership in the enumerated day starts for a post-epoch window:
exactly the day-aligned instants whose day overlaps `[s, e)`. -/
theorem dayStarts_mem (s e D : Int) (hs : 0 ≤ s) (hlt : s < e) :
    D ∈ dayStarts s e ↔ dayNs ∣ D ∧ s < D + dayNs ∧ D < e := by
  unfold dayStarts
  obtain ⟨hd1, hd2, hd3⟩ := floor_day_props s hs
  obtain ⟨he1, he2, he3⟩ := floor_day_props (e - 1) (by omega)
  rw [dayLoop_mem _ _ _ _ (dayLoopFuel_enough _ _)]
  obtain ⟨q0, hq0⟩ := hd1
  obtain ⟨q1, hq1⟩ := he1
  have hday := dayNs_pos
  constructor
  · rintro ⟨k, rfl, hk⟩
    have hk0 : (0 : Int) ≤ (k : Int) * dayNs :=
      mul_nonneg (Int.natCast_nonneg k) (le_of_lt dayNs_pos)
    refine ⟨⟨q0 + k, by rw [hq0]; push_cast; ring⟩, by omega, by omega⟩
  · rintro ⟨⟨c, rfl⟩, hwin, hlt2⟩
    have hge : floor_day_ns s ≤ dayNs * c := by
      by_contra hcon
      push_neg at hcon
      rw [hq0] at hcon
      have hcq : c < q0 := by
        by_contra hc2
        push_neg at hc2
        nlinarith
      have : dayNs * c + dayNs ≤ dayNs * q0 := by nlinarith
      rw [← hq0] at this
      omega
    have hle : dayNs * c ≤ floor_day_ns (e - 1) := by
      by_contra hcon
      push_neg at hcon
      rw [hq1] at hcon
      have hcq : q1 < c := by
        by_contra hc2
        push_neg at hc2
        nlinarith
      have : dayNs * q1 + dayNs ≤ dayNs * c := by nlinarith
      rw [← hq1] at this
      omega
    refine ⟨(c - q0).toNat, ?_, hle⟩
    have hcq : q0 ≤ c := by
      rw [hq0] at hge
      nlinarith
    rw [hq0]
    rw [Int.toNat_of_nonneg (by omega)]
    ring

/-! ## Claim C5: file discovery -/

/-- C5 (corrected: the amended claim).  For every root, symbol, kind,
valid market and half-open window starting at or after the epoch
(`0 ≤ s`), discovery enumerates the day starts with no duplicates, the
enumerated day starts are exactly the day-aligned instants whose UTC
calendar day overlaps the window, each enumerated day contributes a
candidate exactly when its strict-layout path
`<root>/<kind>_<market>/<symbol>/<Y>/<M>/bn_<kind>_<market>_<symbol>_<Y>_<M>_<D>.parquet`
(month and day rendered without zero-padding by `toString`) exists, a
day whose file does not exist is silently omitted without error, and an
empty or inverted window yields an empty candidate list. -/
theorem spec_c5 (root symb kind m nm : String) (s e : Int) (sampling : Option String)
    (ex : String → Bool) (hm : norm_market (some m) = some nm) (hs : 0 ≤ s) :
    (e ≤ s → candidate_files_strict root symb kind (some m) s e sampling ex = .ok []) ∧
    (s < e → candidate_files_strict root symb kind (some m) s e sampling ex
      = .ok (candidatesOneMarket root symb kind nm s e ex)) ∧
    (dayStarts s e).Nodup ∧
    (s < e → ∀ D : Int, D ∈ dayStarts s e ↔ dayNs ∣ D ∧ s < D + dayNs ∧ D < e) ∧
    (candidatesOneMarket root symb kind nm s e ex).map (fun c => c.path)
      = (dayStarts s e).filterMap (fun D =>
          if ex (strictPath root kind nm symb D) then some (strictPath root kind nm symb D)
          else Option.none) := by
  refine ⟨?_, ?_, dayLoop_nodup _ _ _, fun hlt D => dayStarts_mem s e D hs hlt, ?_⟩
  · intro hle
    unfold candidate_files_strict
    rw [if_pos (by omega)]
  · intro hlt
    unfold candidate_files_strict
    rw [if_neg (by omega)]
    simp only [hm]
  · unfold candidatesOneMarket
    rw [List.map_filterMap]
    refine List.filterMap_congr (fun D _ => ?_)
    by_cases hex : ex (strictPath root kind nm symb D)
    · simp only [hex, if_true, Option.map_some]
      rfl
    · simp only [hex, Bool.false_eq_true, if_false]
      rfl

/-- Counterexample for C5 as stated: for the pre-epoch window
`[-1, 2)` ns the UTC day 1969-12-31 (day start `-dayNs`) overlaps the
window and its file exists (the existence predicate is constantly true),
yet discovery — whose day cursor starts at `floor_day_ns(-1) = 0`
because of truncating division — enumerates only 1970-01-01: the
returned candidate list is exactly the 1970-01-01 candidate, and no
candidate carries the 1969-12-31 path. -/
theorem spec_c5_counterexample :
    candidate_files_strict "/d" "S" "depth" (some "spot") (-1) 2 Option.none (fun _ => true)
      = .ok [mkCandidate "/d" "depth" "spot" "S" 0] ∧
    (dayNs ∣ (-86400000000000 : Int)) ∧ (-1 : Int) < -86400000000000 + dayNs ∧
    (-86400000000000 : Int) < 2 ∧
    (mkCandidate "/d" "depth" "spot" "S" 0).path
      ≠ strictPath "/d" "depth" "spot" "S" (-86400000000000) := by
  refine ⟨by decide, ⟨-1, by norm_num [dayNs]⟩, by norm_num [dayNs], by norm_num, by decide⟩

/-- Witness for C5: for the example day window, the example day start is
enumerated and characterized by the overlap condition. -/
theorem spec_c5_witness :
    (86400000000000 : Int) ∈ dayStarts 86400000000000 172800000000000 ↔
      dayNs ∣ (86400000000000 : Int) ∧
      (86400000000000 : Int) < 86400000000000 + dayNs ∧
      (86400000000000 : Int) < 172800000000000 :=
  (spec_c5 "/data" "BTCUSDT" "depth" "spot" "spot" 86400000000000 172800000000000
    Option.none exEx (by decide) (by norm_num)).2.2.2.1 (by norm_num) 86400000000000

/-! ## Lemmas: the offset invariant of the depth streamer -/

theorem except_map_ok {α β : Type} (x : Except String α) (f : α → β) (v : β) :
    x.map f = .ok v ↔ ∃ w, x = .ok w ∧ v = f w := by
  cases x <;> simp [Except.map, eq_comm]

theorem getLastD_single (x d : Nat) : ([x] : List Nat).getLastD d = x := rfl

/-- Decoding a leaf yields one entry per level slot. -/
theorem decodeLeaf_length (md mr : Nat) : ∀ (ls : List (Nat × Nat)) (vs : List Int)
    (es : List Entry), decodeLeaf md mr ls vs = .ok es → es.length = ls.length := by
  intro ls
  induction ls with
  | nil => intro vs es h; cases h; rfl
  | cons l ls ih =>
    intro vs es h
    rw [decodeLeaf.eq_def] at h
    simp only at h
    by_cases hd : (if md = 0 then 0 else l.1) = md
    · rw [if_pos hd] at h
      match vs with
      | [] => cases h
      | v :: vs2 =>
        rw [except_map_ok] at h
        obtain ⟨w, hw, rfl⟩ := h
        simpa using ih vs2 w hw
    · rw [if_neg hd] at h
      rw [except_map_ok] at h
      obtain ⟨w, hw, rfl⟩ := h
      simpa using ih vs w hw

/-- The ask-side offsets of a successful depth row-group decode are
exactly the running sums of the in-window per-row element counts,
provided neither ask leaf holds `2^32` or more level slots (so the
32-bit offsets cannot wrap). -/
theorem processDeltaRG_ask_off {sel : DeltaSelect} {s e : Int} {sch : DepthSchema}
    {rg : DepthRG} {b : DeltaBuffers}
    (h : processDeltaRG sel s e sch rg = .ok b)
    (hsel : needAsks sel = true)
    (hbound : rg.apx.levels.length + rg.aqty.levels.length < 4294967296) :
    b.ask_off = 0 :: offsFromP 0 (askCountsInWin sel s e rg) := by
  obtain ⟨tsE, fidE, lidE, evtE, apxE, aqtyE, bpxE, bqtyE, h1, h2, h3, h4, h5, h6, h7, h8, hb⟩ :=
    processDeltaRG_ok h
  have hwin : askCountsInWin sel s e rg
      = maskFilter ((rowTsList rg.rows tsE).map (inWin s e))
          (askCountsList sel rg.rows apxE aqtyE) := by
    simp only [askCountsInWin, h1, h5, h6]
  have hlen_apx : apxE.length ≤ rg.apx.levels.length := by
    by_cases hx : sel.ask_px = true
    · rw [if_pos hx] at h5
      exact le_of_eq (decodeLeaf_length rg.apx.max_def rg.apx.max_rep _ _ _ h5)
    · rw [if_neg hx] at h5
      cases h5
      simp
  have hlen_aqty : aqtyE.length ≤ rg.aqty.levels.length := by
    by_cases hx : sel.ask_qty = true
    · rw [if_pos hx] at h6
      exact le_of_eq (decodeLeaf_length rg.aqty.max_def rg.aqty.max_rep _ _ _ h6)
    · rw [if_neg hx] at h6
      cases h6
      simp
  have hsum : (maskFilter ((rowTsList rg.rows tsE).map (inWin s e))
      (askCountsList sel rg.rows apxE aqtyE)).sum ≤ apxE.length + aqtyE.length :=
    le_trans (maskFilter_sum_le _ _) (askCountsList_sum_le sel rg.rows apxE aqtyE)
  have hoff := deltaRowLoop_ask_off sel s e hsel rg.rows
    { ts := tsE, fid := fidE, lid := lidE, evt := evtE
      apx := apxE, aqty := aqtyE, bpx := bpxE, bqty := bqtyE
      buf := initDeltaBuffers sel }
  have hinit : (initDeltaBuffers sel).ask_off = [0] := by
    simp [initDeltaBuffers, hsel]
  rw [hb, hoff]
  simp only [hinit, getLastD_single]
  rw [offsFrom_eq_offsFromP _ _ (by omega), hwin]
  rfl

/-- The bid-side analogue of `processDeltaRG_ask_off`. -/
theorem processDeltaRG_bid_off {sel : DeltaSelect} {s e : Int} {sch : DepthSchema}
    {rg : DepthRG} {b : DeltaBuffers}
    (h : processDeltaRG sel s e sch rg = .ok b)
    (hsel : needBids sel = true)
    (hbound : rg.bpx.levels.length + rg.bqty.levels.length < 4294967296) :
    b.bid_off = 0 :: offsFromP 0 (bidCountsInWin sel s e rg) := by
  obtain ⟨tsE, fidE, lidE, evtE, apxE, aqtyE, bpxE, bqtyE, h1, h2, h3, h4, h5, h6, h7, h8, hb⟩ :=
    processDeltaRG_ok h
  have hwin : bidCountsInWin sel s e rg
      = maskFilter ((rowTsList rg.rows tsE).map (inWin s e))
          (bidCountsList sel rg.rows bpxE bqtyE) := by
    simp only [bidCountsInWin, h1, h7, h8]
  have hlen_bpx : bpxE.length ≤ rg.bpx.levels.length := by
    by_cases hx : sel.bid_px = true
    · rw [if_pos hx] at h7
      exact le_of_eq (decodeLeaf_length rg.bpx.max_def rg.bpx.max_rep _ _ _ h7)
    · rw [if_neg hx] at h7
      cases h7
      simp
  have hlen_bqty : bqtyE.length ≤ rg.bqty.levels.length := by
    by_cases hx : sel.bid_qty = true
    · rw [if_pos hx] at h8
      exact le_of_eq (decodeLeaf_length rg.bqty.max_def rg.bqty.max_rep _ _ _ h8)
    · rw [if_neg hx] at h8
      cases h8
      simp
  have hsum : (maskFilter ((rowTsList rg.rows tsE).map (inWin s e))
      (bidCountsList sel rg.rows bpxE bqtyE)).sum ≤ bpxE.length + bqtyE.length :=
    le_trans (maskFilter_sum_le _ _) (bidCountsList_sum_le sel rg.rows bpxE bqtyE)
  have hoff := deltaRowLoop_bid_off sel s e hsel rg.rows
    { ts := tsE, fid := fidE, lid := lidE, evt := evtE
      apx := apxE, aqty := aqtyE, bpx := bpxE, bqty := bqtyE
      buf := initDeltaBuffers sel }
  have hinit : (initDeltaBuffers sel).bid_off = [0] := by
    simp [initDeltaBuffers, hsel]
  rw [hb, hoff]
  simp only [hinit, getLastD_single]
  rw [offsFrom_eq_offsFromP _ _ (by omega), hwin]
  rfl

/-- The in-window count list is as long as the batch row count. -/
theorem askCountsInWin_length {sel : DeltaSelect} {s e : Int} {sch : DepthSchema}
    {rg : DepthRG} {b : DeltaBuffers} (h : deltaProc sel s e sch rg = .ok (some b)) :
    (askCountsInWin sel s e rg).length = b.v_ts.length := by
  obtain ⟨hproc, ⟨tsE, hts, hvts⟩, -⟩ := deltaProc_some h
  obtain ⟨tsE2, fidE, lidE, evtE, apxE, aqtyE, bpxE, bqtyE, h1, h2, h3, h4, h5, h6, h7, h8, hb⟩ :=
    processDeltaRG_ok hproc
  have htseq : tsE2 = tsE := by rw [hts] at h1; cases h1; rfl
  subst htseq
  have hwin : askCountsInWin sel s e rg
      = maskFilter ((rowTsList rg.rows tsE2).map (inWin s e))
          (askCountsList sel rg.rows apxE aqtyE) := by
    simp only [askCountsInWin, h1, h5, h6]
  rw [hwin, hvts,
    maskFilter_length_map (inWin s e) _ _
      (by rw [rowTsList_length, askCountsList_length])]

/-- The bid-side analogue of `askCountsInWin_length`. -/
theorem bidCountsInWin_length {sel : DeltaSelect} {s e : Int} {sch : DepthSchema}
    {rg : DepthRG} {b : DeltaBuffers} (h : deltaProc sel s e sch rg = .ok (some b)) :
    (bidCountsInWin sel s e rg).length = b.v_ts.length := by
  obtain ⟨hproc, ⟨tsE, hts, hvts⟩, -⟩ := deltaProc_some h
  obtain ⟨tsE2, fidE, lidE, evtE, apxE, aqtyE, bpxE, bqtyE, h1, h2, h3, h4, h5, h6, h7, h8, hb⟩ :=
    processDeltaRG_ok hproc
  have htseq : tsE2 = tsE := by rw [hts] at h1; cases h1; rfl
  subst htseq
  have hwin : bidCountsInWin sel s e rg
      = maskFilter ((rowTsList rg.rows tsE2).map (inWin s e))
          (bidCountsList sel rg.rows bpxE bqtyE) := by
    simp only [bidCountsInWin, h1, h7, h8]
  rw [hwin, hvts,
    maskFilter_length_map (inWin s e) _ _
      (by rw [rowTsList_length, bidCountsList_length])]

/-! ## Lemmas: the 32-bit offset overflow counterexample -/

/-- One decode step of an all-present row-starting slot (definition
level 1, repetition level 0, value 5). -/
theorem decodeLeaf_step_e0 (ls : List (Nat × Nat)) (vs : List Int) :
    decodeLeaf 1 1 ((1, 0) :: ls) ((5 : Int) :: vs)
      = (decodeLeaf 1 1 ls vs).map (fun rest => e0CE :: rest) := rfl

/-- One decode step of an all-present list-continuation slot. -/
theorem decodeLeaf_step_e1 (ls : List (Nat × Nat)) (vs : List Int) :
    decodeLeaf 1 1 ((1, 1) :: ls) ((5 : Int) :: vs)
      = (decodeLeaf 1 1 ls vs).map (fun rest => e1CE :: rest) := rfl

/-- Decoding a run of `m` all-present continuation slots prepends `m`
continuation entries. -/
theorem decodeLeaf_rep : ∀ (m : Nat) (ls : List (Nat × Nat)) (vs : List Int),
    decodeLeaf 1 1 (List.replicate m (1, 1) ++ ls) (List.replicate m (5 : Int) ++ vs)
      = (decodeLeaf 1 1 ls vs).map (fun rest => List.replicate m e1CE ++ rest)
  | 0, ls, vs => by
    simp only [List.replicate_zero, List.nil_append]
    cases h : decodeLeaf 1 1 ls vs <;> simp [Except.map]
  | m + 1, ls, vs => by
    rw [List.replicate_succ, List.replicate_succ, List.cons_append, List.cons_append,
      decodeLeaf_step_e1, decodeLeaf_rep m ls vs]
    cases h : decodeLeaf 1 1 ls vs <;> simp [Except.map, List.replicate_succ]

/-- Decoding one `2^31`-element row's level run prepends `bigEnts`. -/
theorem decode_bigRow (ls : List (Nat × Nat)) (vs : List Int) :
    decodeLeaf 1 1 (bigRowLevels ++ ls) (List.replicate kBig (5 : Int) ++ vs)
      = (decodeLeaf 1 1 ls vs).map (fun rest => bigEnts ++ rest) := by
  rw [show bigRowLevels = (1, 0) :: List.replicate (kBig - 1) (1, 1) from rfl,
    show List.replicate kBig (5 : Int) = (5 : Int) :: List.replicate (kBig - 1) 5 from rfl,
    List.cons_append, List.cons_append, decodeLeaf_step_e0, decodeLeaf_rep (kBig - 1) ls vs]
  cases h : decodeLeaf 1 1 ls vs <;> simp [Except.map, bigEnts, List.cons_append]

/-- The overflow counterexample's ask-px leaf decodes to two `2^31`-entry
row runs. -/
theorem decode_bigApx : decodeCol bigApx = .ok (bigEnts ++ bigEnts) := by
  have h1 := decode_bigRow [] []
  rw [List.append_nil, List.append_nil,
    show decodeLeaf 1 1 ([] : List (Nat × Nat)) ([] : List Int) = Except.ok ([] : List Entry)
      from rfl] at h1
  have h1b : decodeLeaf 1 1 bigRowLevels (List.replicate kBig (5 : Int)) = .ok bigEnts := by
    rw [h1]
    simp [Except.map]
  have h2 := decode_bigRow bigRowLevels (List.replicate kBig (5 : Int))
  rw [h1b] at h2
  show decodeLeaf 1 1 (bigRowLevels ++ bigRowLevels) (List.replicate (2 * kBig) (5 : Int))
      = .ok (bigEnts ++ bigEnts)
  rw [show 2 * kBig = kBig + kBig from by decide, List.replicate_add, h2]
  simp [Except.map]

theorem consumeRun_e1_nil : ∀ (m : Nat) (x : Entry),
    consumeRun (x :: List.replicate m e1CE) = (x :: List.replicate m e1CE, [])
  | 0, _ => rfl
  | m + 1, x => by
    rw [List.replicate_succ, consumeRun_cons_cons, if_neg (by decide : ¬(e1CE.rl = 0)),
      consumeRun_e1_nil m e1CE]

theorem consumeRun_e1_cons : ∀ (m : Nat) (x h : Entry) (t : List Entry), h.rl = 0 →
    consumeRun (x :: (List.replicate m e1CE ++ h :: t)) = (x :: List.replicate m e1CE, h :: t)
  | 0, x, h, t, hrl => by
    rw [List.replicate_zero, List.nil_append, consumeRun_cons_cons, if_pos hrl]
  | m + 1, x, h, t, hrl => by
    rw [List.replicate_succ, List.cons_append, consumeRun_cons_cons,
      if_neg (by decide : ¬(e1CE.rl = 0)), consumeRun_e1_cons m e1CE h t hrl]

/-- The single-leaf assembler, unfolded on a non-empty column. -/
theorem append_leaf_cons (p : Entry) (rest : List Entry) :
    append_list_from_leaf_for_row (p :: rest)
      = if p.has_value = false ∧ p.rl = 0 then ⟨0, [], rest⟩
        else ⟨(consumeRun (p :: rest)).1.length,
              (consumeRun (p :: rest)).1.map (fun e => e.value), (consumeRun (p :: rest)).2⟩ := rfl

/-- The single-leaf assembler on one `2^31`-element row run at the end of
the column: count `2^31`, nothing left. -/
theorem append_leaf_big_nil_eq :
    append_list_from_leaf_for_row bigEnts
      = ⟨kBig, (e0CE :: List.replicate (kBig - 1) e1CE).map (fun e => e.value), []⟩ := by
  rw [show bigEnts = e0CE :: List.replicate (kBig - 1) e1CE from rfl, append_leaf_cons,
    if_neg (by decide : ¬(e0CE.has_value = false ∧ e0CE.rl = 0)),
    consumeRun_e1_nil (kBig - 1) e0CE]
  rw [show ((e0CE :: List.replicate (kBig - 1) e1CE, ([] : List Entry))).1
      = e0CE :: List.replicate (kBig - 1) e1CE from rfl,
    show ((e0CE :: List.replicate (kBig - 1) e1CE, ([] : List Entry))).2
      = ([] : List Entry) from rfl,
    List.length_cons, List.length_replicate, show kBig - 1 + 1 = kBig from by decide]

/-- The single-leaf assembler on one `2^31`-element row run followed by a
second one: count `2^31`, the second run left. -/
theorem append_leaf_big_big_eq :
    append_list_from_leaf_for_row (bigEnts ++ bigEnts)
      = ⟨kBig, (e0CE :: List.replicate (kBig - 1) e1CE).map (fun e => e.value), bigEnts⟩ := by
  have hrun : consumeRun (e0CE :: (List.replicate (kBig - 1) e1CE ++ bigEnts))
      = (e0CE :: List.replicate (kBig - 1) e1CE, bigEnts) := by
    rw [show bigEnts = e0CE :: List.replicate (kBig - 1) e1CE from rfl]
    exact consumeRun_e1_cons (kBig - 1) e0CE e0CE (List.replicate (kBig - 1) e1CE) rfl
  rw [show bigEnts ++ bigEnts = e0CE :: (List.replicate (kBig - 1) e1CE ++ bigEnts) from rfl,
    append_leaf_cons, if_neg (by decide : ¬(e0CE.has_value = false ∧ e0CE.rl = 0)), hrun]
  rw [show ((e0CE :: List.replicate (kBig - 1) e1CE, bigEnts)).1
      = e0CE :: List.replicate (kBig - 1) e1CE from rfl,
    show ((e0CE :: List.replicate (kBig - 1) e1CE, bigEnts)).2 = bigEnts from rfl,
    List.length_cons, List.length_replicate, show kBig - 1 + 1 = kBig from by decide]

/-- The ask-side row consumption under the counterexample's selection
(ask prices only): a single-leaf read of the px leg. -/
theorem askRowConsume_cbSel (apx aqty : List Entry) :
    askRowConsume cbSel apx aqty
      = ⟨(append_list_from_leaf_for_row apx).count, (append_list_from_leaf_for_row apx).vals,
         [], (append_list_from_leaf_for_row apx).rest, aqty⟩ := rfl

/-- The per-row ask element counts of the overflow row group: `2^31` for
each of the two rows. -/
theorem askCountsList_cbSel_succ (r : Nat) (apx aqty : List Entry) :
    askCountsList cbSel (r + 1) apx aqty
      = (append_list_from_leaf_for_row apx).count
        :: askCountsList cbSel r (append_list_from_leaf_for_row apx).rest aqty := rfl

/-- The per-row ask element counts of the overflow row group: `2^31` for
each of the two rows. -/
theorem askCounts_cb :
    askCountsList cbSel 2 (bigEnts ++ bigEnts) [] = [kBig, kBig] := by
  rw [show (2 : Nat) = 1 + 1 from rfl, askCountsList_cbSel_succ, append_leaf_big_big_eq,
    show (⟨kBig, (e0CE :: List.replicate (kBig - 1) e1CE).map (fun e => e.value), bigEnts⟩
      : LeafRead).count = kBig from rfl,
    show (⟨kBig, (e0CE :: List.replicate (kBig - 1) e1CE).map (fun e => e.value), bigEnts⟩
      : LeafRead).rest = bigEnts from rfl,
    show (1 : Nat) = 0 + 1 from rfl, askCountsList_cbSel_succ, append_leaf_big_nil_eq,
    show (⟨kBig, (e0CE :: List.replicate (kBig - 1) e1CE).map (fun e => e.value), []⟩
      : LeafRead).count = kBig from rfl,
    show (⟨kBig, (e0CE :: List.replicate (kBig - 1) e1CE).map (fun e => e.value), []⟩
      : LeafRead).rest = ([] : List Entry) from rfl]
  rfl

/-- `processDeltaRG`, unfolded on a row group whose checks pass and whose
column decodes are given. -/
theorem processDeltaRG_build (sel : DeltaSelect) (s e : Int) (sch : DepthSchema) (rg : DepthRG)
    (tsE fidE lidE evtE apxE aqtyE bpxE bqtyE : List Entry)
    (c1 : ¬(sch.hasTs = false))
    (c2 : ¬(sel.firstId = true ∧ sch.hasFid = false))
    (c3 : ¬(sel.lastId = true ∧ sch.hasLid = false))
    (c4 : ¬(sel.eventTime = true ∧ sch.hasEvt = false))
    (c5 : ¬(sel.ask_px = true ∧ sch.hasAskPx = false))
    (c6 : ¬(sel.ask_qty = true ∧ sch.hasAskQty = false))
    (c7 : ¬(sel.bid_px = true ∧ sch.hasBidPx = false))
    (c8 : ¬(sel.bid_qty = true ∧ sch.hasBidQty = false))
    (h1 : decodeCol rg.ts = .ok tsE)
    (h2 : (if sel.firstId = true then decodeCol rg.fid else Except.ok []) = .ok fidE)
    (h3 : (if sel.lastId = true then decodeCol rg.lid else Except.ok []) = .ok lidE)
    (h4 : (if sel.eventTime = true then decodeCol rg.evt else Except.ok []) = .ok evtE)
    (h5 : (if sel.ask_px = true then decodeCol rg.apx else Except.ok []) = .ok apxE)
    (h6 : (if sel.ask_qty = true then decodeCol rg.aqty else Except.ok []) = .ok aqtyE)
    (h7 : (if sel.bid_px = true then decodeCol rg.bpx else Except.ok []) = .ok bpxE)
    (h8 : (if sel.bid_qty = true then decodeCol rg.bqty else Except.ok []) = .ok bqtyE) :
    processDeltaRG sel s e sch rg
      = .ok (deltaRowLoop sel s e rg.rows
          { ts := tsE, fid := fidE, lid := lidE, evt := evtE
            apx := apxE, aqty := aqtyE, bpx := bpxE, bqty := bqtyE
            buf := initDeltaBuffers sel }).buf := by
  unfold processDeltaRG
  rw [if_neg c1, if_neg c2, if_neg c3, if_neg c4, if_neg c5, if_neg c6, if_neg c7, if_neg c8]
  simp only [h1, h2, h3, h4, h5, h6, h7, h8, Except.bind]

/-- The overflow row group decodes successfully to `cbBatch`. -/
theorem processDeltaRG_cb :
    processDeltaRG cbSel 0 10 fullDepthSchema cbRG = .ok cbBatch := by
  have h := processDeltaRG_build cbSel 0 10 fullDepthSchema cbRG
    [⟨0, 0, true, 1, true⟩, ⟨0, 0, true, 2, true⟩] [] [] [] (bigEnts ++ bigEnts) [] [] []
    (by decide) (by decide) (by decide) (by decide) (by decide) (by decide) (by decide) (by decide)
    rfl (by rw [if_neg (by decide)]) (by rw [if_neg (by decide)]) (by rw [if_neg (by decide)])
    (by rw [if_pos (show cbSel.ask_px = true from rfl)]; exact decode_bigApx)
    (by rw [if_neg (by decide)]) (by rw [if_neg (by decide)]) (by rw [if_neg (by decide)])
  rw [h, show cbRG.rows = 2 from rfl,
    show ({ ts := [⟨0, 0, true, 1, true⟩, ⟨0, 0, true, 2, true⟩]
            fid := [], lid := [], evt := []
            apx := bigEnts ++ bigEnts, aqty := [], bpx := [], bqty := []
            buf := initDeltaBuffers cbSel } : DeltaState) = stCE from rfl]
  rfl

/-- The timestamps of the overflow batch. -/
theorem cbBatch_v_ts : cbBatch.v_ts = [1, 2] := by
  show (deltaRowLoop cbSel 0 10 2 stCE).buf.v_ts = [1, 2]
  rw [deltaRowLoop_v_ts]
  decide

/-- The wrapped ask offsets of the overflow batch. -/
theorem cbBatch_ask_off : cbBatch.ask_off = [0, 2147483648, 0] := by
  show (deltaRowLoop cbSel 0 10 2 stCE).buf.ask_off = [0, 2147483648, 0]
  rw [deltaRowLoop_ask_off cbSel 0 10 (by decide),
    show stCE.apx = bigEnts ++ bigEnts from rfl,
    show stCE.aqty = ([] : List Entry) from rfl, askCounts_cb]
  decide

/-- The streamer step on a cleanly decoding row group with a non-empty
batch. -/
theorem deltaProc_build (sel : DeltaSelect) (s e : Int) (sch : DepthSchema) (rg : DepthRG)
    (b : DeltaBuffers) (h : processDeltaRG sel s e sch rg = .ok b)
    (hne : b.v_ts.isEmpty = false) :
    deltaProc sel s e sch rg = .ok (some b) := by
  unfold deltaProc
  rw [h]
  simp only [Except.map, hne, Bool.false_eq_true, if_false]

/-- The overflow row group's batch as the streamer hands it to the
reader. -/
theorem deltaProc_cb : deltaProc cbSel 0 10 fullDepthSchema cbRG = .ok (some cbBatch) :=
  deltaProc_build cbSel 0 10 fullDepthSchema cbRG cbBatch processDeltaRG_cb
    (by rw [cbBatch_v_ts]; rfl)

/-- The row-group loop on a file whose first row group yields a batch. -/
theorem nextRgLoop_cons_some {ρ β : Type} (process : ρ → Except String (Option β))
    (rg : ρ) (rest : List ρ) (b : β) (h : process rg = .ok (some b)) :
    nextRgLoop process (rg :: rest) = .ok (some (b, rest)) := by
  simp only [nextRgLoop, h]

/-- The candidate loop on a first candidate that opens and yields a
batch. -/
theorem openLoop_cons_some {σ ρ β : Type} (openF : String → Option (σ × List ρ))
    (process : σ → ρ → Except String (Option β)) (c : Candidate) (rest : List Candidate)
    (sch : σ) (rgs : List ρ) (b : β) (rgs2 : List ρ)
    (hop : openF c.path = some (sch, rgs))
    (hnl : nextRgLoop (process sch) rgs = .ok (some (b, rgs2))) :
    openLoop openF process (c :: rest) = some (b, (sch, rgs2), rest) := by
  simp only [openLoop, hop, hnl]

/-- `next` on a fresh reader state whose candidate loop yields a batch. -/
theorem readerNext_fresh {σ ρ β : Type} (openF : String → Option (σ × List ρ))
    (process : σ → ρ → Except String (Option β)) (pending : List Candidate)
    (b : β) (cf : σ × List ρ) (pend : List Candidate)
    (hol : openLoop openF process pending = some (b, cf, pend)) :
    readerNext openF process ⟨Option.none, pending⟩ = some (b, ⟨some cf, pend⟩) := by
  simp only [readerNext, hol]

/-- The reader delivers the overflow batch. -/
theorem readerNext_cb :
    readerNext cbOpenF (deltaProc cbSel 0 10) ⟨Option.none, [cand "f1"]⟩
      = some (cbBatch, ⟨some (fullDepthSchema, []), []⟩) :=
  readerNext_fresh cbOpenF (deltaProc cbSel 0 10) [cand "f1"] cbBatch (fullDepthSchema, []) []
    (openLoop_cons_some cbOpenF (deltaProc cbSel 0 10) (cand "f1") [] fullDepthSchema [cbRG]
      cbBatch [] (show cbOpenF (cand "f1").path = some (fullDepthSchema, [cbRG]) from rfl)
      (nextRgLoop_cons_some (deltaProc cbSel 0 10 fullDepthSchema) cbRG [] cbBatch deltaProc_cb))

/-- Specification-side: `askCountsInWin`, unfolded on given column
decodes. -/
theorem askCountsInWin_build (sel : DeltaSelect) (s e : Int) (rg : DepthRG)
    (tsE apxE aqtyE : List Entry)
    (h1 : decodeCol rg.ts = .ok tsE)
    (h5 : (if sel.ask_px = true then decodeCol rg.apx else Except.ok []) = .ok apxE)
    (h6 : (if sel.ask_qty = true then decodeCol rg.aqty else Except.ok []) = .ok aqtyE) :
    askCountsInWin sel s e rg
      = maskFilter ((rowTsList rg.rows tsE).map (inWin s e))
          (askCountsList sel rg.rows apxE aqtyE) := by
  simp only [askCountsInWin, h1, h5, h6]

/-- **C1.** Every depth batch the Batch Reader's `next` delivers — from a
state whose reachable row groups hold fewer than `2^32` level slots per
book side — comes from a reachable row group, and each selected book
side's offset vector has length `n + 1` (`n` the batch row count), starts
at `0`, is monotonically non-decreasing, and has consecutive differences
equal to the decoded in-window per-row element counts; and the
end-to-end example (one day-file of 3 rows with ask sizes `[2, 0, 1]`,
full-day window) yields exactly one batch of 3 rows with ask offsets
`[0, 2, 2, 3]`.  Without the `2^32` bound the `uint32_t` offsets wrap:
see the counterexample. -/
theorem spec_c1 (sel : DeltaSelect) (s e : Int)
    (openF : String → Option (DepthSchema × List DepthRG))
    (st st2 : ReaderState DepthSchema DepthRG) (b : DeltaBuffers)
    (hbd : boundedDeltaState openF st)
    (h : readerNext openF (deltaProc sel s e) st = some (b, st2)) :
    (∃ sch rg, containsRG openF st sch rg ∧
      deltaProc sel s e sch rg = .ok (some b) ∧
      (needAsks sel = true →
        b.ask_off.length = b.v_ts.length + 1 ∧
        b.ask_off.getD 0 0 = 0 ∧
        List.Chain' (fun x y => x ≤ y) b.ask_off ∧
        ∀ i, i < b.v_ts.length →
          b.ask_off.getD (i + 1) 0
            = b.ask_off.getD i 0 + (askCountsInWin sel s e rg).getD i 0) ∧
      (needBids sel = true →
        b.bid_off.length = b.v_ts.length + 1 ∧
        b.bid_off.getD 0 0 = 0 ∧
        List.Chain' (fun x y => x ≤ y) b.bid_off ∧
        ∀ i, i < b.v_ts.length →
          b.bid_off.getD (i + 1) 0
            = b.bid_off.getD i 0 + (bidCountsInWin sel s e rg).getD i 0)) ∧
    (get_depth_cols "/data" exDay (exDay + dayNs) "BTCUSDT" (some "spot") exEx).map
      (fun st0 => readerDrain exOpenF (deltaProc {} exDay (exDay + dayNs)) st0)
      = .ok [exBatch] ∧
    exBatch.v_ts.length = 3 ∧
    exBatch.ask_off = [0, 2, 2, 3] := by
  obtain ⟨-, -, sch, rg, hcont, hproc⟩ := readerNext_some h
  obtain ⟨hab, hbb⟩ := hbd sch rg hcont
  refine ⟨⟨sch, rg, hcont, hproc, ?_, ?_⟩, by decide, by decide, by decide⟩
  · intro hsel
    have hoff := processDeltaRG_ask_off (deltaProc_some hproc).1 hsel hab
    have hlen := askCountsInWin_length hproc
    refine ⟨?_, ?_, ?_, ?_⟩
    · rw [hoff, List.length_cons, offsFromP_length, hlen]
    · rw [hoff]
      rfl
    · rw [hoff]
      exact offsFromP_chain _ 0
    · intro i hi
      rw [hoff]
      exact offsFromP_getD _ 0 i (by rw [hlen]; exact hi)
  · intro hsel
    have hoff := processDeltaRG_bid_off (deltaProc_some hproc).1 hsel hbb
    have hlen := bidCountsInWin_length hproc
    refine ⟨?_, ?_, ?_, ?_⟩
    · rw [hoff, List.length_cons, offsFromP_length, hlen]
    · rw [hoff]
      rfl
    · rw [hoff]
      exact offsFromP_chain _ 0
    · intro i hi
      rw [hoff]
      exact offsFromP_getD _ 0 i (by rw [hlen]; exact hi)

/-- Witness for C1: the end-to-end example instantiates the theorem — the
one-candidate reader state is bounded, its `next` delivers `exBatch`, and
all the offset properties hold of it. -/
theorem spec_c1_witness :
    (∃ sch rg, containsRG exOpenF ⟨Option.none, [⟨exPath, exDay, exDay + dayNs⟩]⟩ sch rg ∧
      deltaProc {} exDay (exDay + dayNs) sch rg = .ok (some exBatch) ∧
      (needAsks {} = true →
        exBatch.ask_off.length = exBatch.v_ts.length + 1 ∧
        exBatch.ask_off.getD 0 0 = 0 ∧
        List.Chain' (fun x y => x ≤ y) exBatch.ask_off ∧
        ∀ i, i < exBatch.v_ts.length →
          exBatch.ask_off.getD (i + 1) 0
            = exBatch.ask_off.getD i 0
              + (askCountsInWin {} exDay (exDay + dayNs) rg).getD i 0) ∧
      (needBids {} = true →
        exBatch.bid_off.length = exBatch.v_ts.length + 1 ∧
        exBatch.bid_off.getD 0 0 = 0 ∧
        List.Chain' (fun x y => x ≤ y) exBatch.bid_off ∧
        ∀ i, i < exBatch.v_ts.length →
          exBatch.bid_off.getD (i + 1) 0
            = exBatch.bid_off.getD i 0
              + (bidCountsInWin {} exDay (exDay + dayNs) rg).getD i 0)) ∧
    (get_depth_cols "/data" exDay (exDay + dayNs) "BTCUSDT" (some "spot") exEx).map
      (fun st0 => readerDrain exOpenF (deltaProc {} exDay (exDay + dayNs)) st0)
      = .ok [exBatch] ∧
    exBatch.v_ts.length = 3 ∧
    exBatch.ask_off = [0, 2, 2, 3] :=
  spec_c1 {} exDay (exDay + dayNs) exOpenF ⟨Option.none, [⟨exPath, exDay, exDay + dayNs⟩]⟩
    ⟨some (fullDepthSchema, []), []⟩ exBatch
    (by
      intro sch rg hc
      rcases hc with ⟨rgs, hcur, -⟩ | ⟨c, hcm, rgs, hop, hrg⟩
      · exact Option.noConfusion hcur
      · rcases List.mem_singleton.mp hcm with rfl
        have hop2 : some (fullDepthSchema, [exRG]) = some (sch, rgs) := hop
        injection hop2 with h3
        obtain ⟨rfl, rfl⟩ : fullDepthSchema = sch ∧ [exRG] = rgs :=
          ⟨congrArg Prod.fst h3, congrArg Prod.snd h3⟩
        rcases List.mem_singleton.mp hrg with rfl
        exact ⟨by decide, by decide⟩)
    (by decide)

/-- Counterexample to C1 as stated universally: a two-row depth row group
whose rows each hold `2^31` ask list elements decodes without error and
the reader delivers its batch, but the `uint32_t` offset vector wraps to
`[0, 2^31, 0]`: not monotonically non-decreasing, and the last
consecutive difference is `0` rather than the `2^31` elements decoded for
that row. -/
theorem spec_c1_counterexample :
    (readerNext cbOpenF (deltaProc cbSel 0 10) ⟨Option.none, [cand "f1"]⟩).map
        (fun p => (p.1.v_ts, p.1.ask_off))
      = some ([(1 : Int), 2], [0, 2147483648, 0]) ∧
    askCountsInWin cbSel 0 10 cbRG = [2147483648, 2147483648] ∧
    ¬ List.Chain' (fun x y => x ≤ y) [(0 : Nat), 2147483648, 0] ∧
    ¬ (([(0 : Nat), 2147483648, 0].getD 2 0) - ([(0 : Nat), 2147483648, 0].getD 1 0)
        = ([(2147483648 : Nat), 2147483648].getD 1 0)) := by
  refine ⟨?_, ?_, ?_, by decide⟩
  · rw [readerNext_cb]
    simp only [Option.map]
    rw [cbBatch_v_ts, cbBatch_ask_off]
  · have hts : decodeCol cbRG.ts
        = Except.ok [(⟨0, 0, true, 1, true⟩ : Entry), ⟨0, 0, true, 2, true⟩] := rfl
    have h5 : (if cbSel.ask_px = true then decodeCol cbRG.apx else Except.ok [])
        = Except.ok (bigEnts ++ bigEnts) := by
      rw [if_pos (show cbSel.ask_px = true from rfl)]
      exact decode_bigApx
    have h6 : (if cbSel.ask_qty = true then decodeCol cbRG.aqty else Except.ok [])
        = Except.ok ([] : List Entry) := by rw [if_neg (by decide)]
    rw [askCountsInWin_build cbSel 0 10 cbRG _ _ _ hts h5 h6,
      show cbRG.rows = 2 from rfl, askCounts_cb]
    decide
  · intro hch
    have h2 := (List.chain'_cons.mp (List.chain'_cons.mp hch).2).1
    omega

end ShardedReader
